import Mathlib

/-!
# Eidolon: image-load gate, tick loop and input snapshot

A shallow embedding of the class `Eidolon` of `src/eidolon.js`.

Modelling conventions.

* The instance (`this`) is the record `Eidolon`; a field the constructor leaves
  unassigned is an `Option` whose `none` stands for the JavaScript value
  undefined.
* The numbers of the pointer mapping (the surface sizes, `scalex`, `scaley`,
  `mousex`, `mousey` and the event offsets) are IEEE 754 binary64 values,
  `JsNum`, and their quotients are rounded as the format prescribes. Timestamps,
  tick lengths and drawing coordinates, which the class only subtracts or
  passes on, are exact rationals.
* The dictionary `images` is an ordinary JavaScript object: `images` holds its
  own properties in creation order and `imagesProto` the object installed as
  its prototype by a write to the key `__proto__`. Reads go through the
  prototype chain (`propGet`) and `for ... in` walks the keys in the order of
  the language (`forIn`).
* Host objects (images, canvases, timers) are known by their identity, a
  `Handle` drawn from the allocator `World.nextId`.
* Every call the library makes to the host or to a user callback is appended
  to `World.trace`. A user callback is a number; what its body does to the
  fields of the instance is given by the parameter `User`. Callbacks are taken
  to return normally.
* A library function that can raise returns the world at the point where it
  stopped together with a `Completion`.
-/

/-- Identity of a host object. -/
abbrev Handle := Nat

/-- A JavaScript number: an IEEE 754 binary64 value. `finite neg m e` is the
value `(-1)^neg * m * 2^e` in the form of the format: `m < 2^53`,
`-1074 ≤ e ≤ 971`, and `2^52 ≤ m` unless `e = -1074`; the two zeros are
`finite false 0 (-1074)` and `finite true 0 (-1074)`. -/
inductive JsNum where
  | finite (neg : Bool) (m : Nat) (e : Int)
  | infinity (neg : Bool)
  | nan
deriving DecidableEq, Repr

namespace JsNum

/-- Loop of `log2`. -/
def log2Loop : Nat → Nat → Nat
  | 0, _ => 0
  | fuel + 1, n => if n < 2 then 0 else log2Loop fuel (n / 2) + 1

/-- The integer `floor (log2 n)`, for positive `n`. -/
def log2 (n : Nat) : Nat := log2Loop n n

/-- The integer `floor (log2 (n / d))`, for positive `n` and `d`. -/
def floorLog2Quot (n d : Nat) : Int :=
  let l : Int := (log2 n : Int) - (log2 d : Int)
  if 0 ≤ l then (if d * 2 ^ l.toNat ≤ n then l else l - 1)
  else (if d ≤ n * 2 ^ (-l).toNat then l else l - 1)

/-- The quotient `n / d` of two naturals, `d` positive, rounded to the nearest
binary64 value, ties to even, with the sign `neg`: `k` is the exponent of the
last place, `q` and `r` the quotient and remainder at that place. A result
beyond the largest finite value is an infinity. -/
def roundQuot (neg : Bool) (n d : Nat) : JsNum :=
  if n = 0 then finite neg 0 (-1074)
  else
    let k : Int := max (floorLog2Quot n d - 52) (-1074)
    let num := if k ≤ 0 then n * 2 ^ (-k).toNat else n
    let den := if k ≤ 0 then d else d * 2 ^ k.toNat
    let q := num / den
    let r := num % den
    let m := if den < 2 * r ∨ (2 * r = den ∧ q % 2 = 1) then q + 1 else q
    let m1 := if m = 2 ^ 53 then 2 ^ 52 else m
    let k1 := if m = 2 ^ 53 then k + 1 else k
    if 971 < k1 then infinity neg else finite neg m1 k1

/-- The number a natural literal denotes. -/
def ofNat (n : Nat) : JsNum := roundQuot false n 1

/-- The division operator of JavaScript on numbers. -/
def div : JsNum → JsNum → JsNum
  | nan, _ => nan
  | _, nan => nan
  | infinity _, infinity _ => nan
  | infinity s, finite t _ _ => infinity (xor s t)
  | finite s _ _, infinity t => finite (xor s t) 0 (-1074)
  | finite s m e, finite t n f =>
    if n = 0 then (if m = 0 then nan else infinity (xor s t))
    else if e ≤ f then roundQuot (xor s t) m (n * 2 ^ (f - e).toNat)
    else roundQuot (xor s t) (m * 2 ^ (e - f).toNat) n

/-- The rational value of a finite number. -/
def toRat : JsNum → Option ℚ
  | finite neg m e => some ((if neg then -1 else 1) * (m : ℚ) * (2 : ℚ) ^ e)
  | _ => none

end JsNum

instance (n : Nat) : OfNat JsNum n := ⟨JsNum.ofNat n⟩

instance : Div JsNum := ⟨JsNum.div⟩

/-- The host pixel container returned by `getImageData`: the bytes are in `data`. -/
structure ImageData where
  width : Nat
  height : Nat
  data : List Nat
deriving DecidableEq, Repr

/-- The JavaScript values that the modelled functions compute with. -/
inductive JsVal where
  | undefined
  | bool (b : Bool)
  | num (n : ℚ)
deriving DecidableEq

/-- Strict equality `===` on the modelled values. -/
def JsVal.strictEq : JsVal → JsVal → Bool
  | .undefined, .undefined => true
  | .bool a, .bool b => a == b
  | .num a, .num b => a == b
  | _, _ => false

/-- Truthiness of a value. -/
def JsVal.truthy : JsVal → Bool
  | .undefined => false
  | .bool b => b
  | .num n => n != 0

/-- The operator `a && b`: `a` when `a` is falsy, `b` otherwise. -/
def JsVal.and (a b : JsVal) : JsVal := if a.truthy then b else a

/-- Property read `d[k]` on an `ImageData` object: the object has no indexed
properties (its bytes are reached through `data`), so the read yields undefined. -/
def ImageData.index (_d : ImageData) (_k : ℚ) : JsVal := JsVal.undefined

/-- The object `timg` stored in `images` under the name of the image. -/
structure ImageEntry where
  loaded : Bool
  image : Handle
  imagedata : Option ImageData
deriving DecidableEq, Repr

/-- What a property read `this.images[key]` can yield: nothing, an object `timg`,
a field of the `timg` that serves as prototype, or a member of
`Object.prototype`. -/
inductive Lookup where
  | undefined
  | entry (t : ImageEntry)
  | flag (b : Bool)
  | element (h : Handle)
  | pixels (d : ImageData)
  | builtin (name : String)
  | objectPrototype
deriving DecidableEq

/-- Truthiness of a value read from the dictionary. -/
def Lookup.truthy : Lookup → Bool
  | .undefined => false
  | .flag b => b
  | _ => true

/-- The read `v.loaded` on a value enumerated from the dictionary: only a `timg`
has the field. -/
def Lookup.loaded : Lookup → JsVal
  | .entry t => JsVal.bool t.loaded
  | _ => JsVal.undefined

/-- Fields of an `Eidolon` instance. -/
structure Eidolon where
  canvaswidth : JsNum
  canvasheight : JsNum
  offwidth : JsNum
  offheight : JsNum
  scalex : JsNum
  scaley : JsNum
  mousex : JsNum
  mousey : JsNum
  mouseclicked : Bool
  mousedown : Bool
  mousemoved : Option Bool
  images : List (String × ImageEntry)
  imagesProto : Option ImageEntry
  imgcanvas : List (String × Handle)
  imagesloaded : Option Nat
  ticktime : Option ℚ
  gamefunc : Option Nat
  stopped : Option Bool
  lasttime : Option ℚ
  timeout : Option Handle
deriving DecidableEq

/-- Calls made by the library to the host and to user callbacks. The image
argument of `offDrawImage` is `none` when the library passes undefined. -/
inductive Effect where
  | log (msg : String)
  | newImage (h : Handle)
  | setSrc (h : Handle) (src : String)
  | addEventListener (target : Handle) (type : String)
  | callEndfunc (f : Nat)
  | callGamefunc (f : Nat) (elapsed : Option ℚ) (self : Eidolon)
  | composite (sw sh dw dh : JsNum)
  | setTimeout (delay : Option ℚ) (timer : Handle)
  | offDrawImage (img : Option Handle) (sx sy sw sh dx dy dw dh : ℚ)
  | createCanvas (h : Handle)
  | canvasDrawImage (canvas img : Handle)
  | getImageData (canvas : Handle) (sw sh : ℚ)
deriving DecidableEq

/-- Exceptions raised by the modelled code. -/
inductive JsError where
  | typeError (what : String)
  | indexSizeError
deriving DecidableEq, Repr

/-- How a library function ended. -/
inductive Completion where
  | normal
  | threw (e : JsError)
deriving DecidableEq, Repr

/-- The instance together with the host state the library touches. -/
structure World where
  self : Eidolon
  trace : List Effect
  timers : List Handle
  nextId : Handle

/-- Bodies of the user callbacks, as transformers of the instance fields. -/
structure User where
  endfunc : Nat → Eidolon → Eidolon
  gamefunc : Nat → Option ℚ → Eidolon → Eidolon

/-- What the host knows about a decoded image. -/
structure Host where
  imageWidth : Handle → Nat
  imageHeight : Handle → Nat
  imagePixels : Handle → List Nat

/-- A host event as `handleEvent` reads it. -/
structure Event where
  type : String
  target : Handle
  offsetX : JsNum
  offsetY : JsNum

/-- What `new Eidolon(...)` evaluates to. The `return null` of the two error
paths is ignored by `new`, which yields the instance as far as it was built:
`bare` has no field assigned (`initEidolon error 1`), `surfaceOnly` has the
onscreen context, `canvaswidth`, `canvasheight` and the offscreen canvas but
nothing else (`initEidolon error 2`). -/
inductive Constructed where
  | bare
  | surfaceOnly (canvaswidth canvasheight offwidth offheight : JsNum)
  | full (s : Eidolon)

namespace Eidolon

/-- User callbacks that leave the instance alone. -/
def idle : User := ⟨fun _ s => s, fun _ _ s => s⟩

/-- The own property of a dictionary object under `key`, if any. -/
def objGet {α : Type} (obj : List (String × α)) (key : String) : Option α :=
  (obj.find? (fun kv => kv.1 == key)).map Prod.snd

/-- Write of an own property `key` of a dictionary object: an existing key
keeps its place. -/
def objSet {α : Type} : List (String × α) → String → α → List (String × α)
  | [], key, v => [(key, v)]
  | (k, x) :: rest, key, v =>
    if k = key then (k, v) :: rest else (k, x) :: objSet rest key v

/-- The property names of `Object.prototype`, as the language defines it. All
are functions except `__proto__`, an accessor for the prototype of the object
it is read on; none is enumerable. -/
def objectPrototypeKeys : List String :=
  ["constructor", "__defineGetter__", "__defineSetter__", "hasOwnProperty",
   "__lookupGetter__", "__lookupSetter__", "isPrototypeOf", "propertyIsEnumerable",
   "toString", "valueOf", "__proto__", "toLocaleString"]

/-- The fields a dictionary inherits from the `timg` installed as its prototype,
in creation order: `loaded`, `image`, and `imagedata` once it has been assigned. -/
def inheritedFields (proto : Option ImageEntry) : List (String × Lookup) :=
  match proto with
  | none => []
  | some t =>
    [("loaded", Lookup.flag t.loaded), ("image", Lookup.element t.image)] ++
      (match t.imagedata with
        | some d => [("imagedata", Lookup.pixels d)]
        | none => [])

/-- The property read `this.images[key]`: an own property, else a field of the
prototype `timg`, else a member of `Object.prototype`, else undefined. -/
def propGet (own : List (String × ImageEntry)) (proto : Option ImageEntry) (key : String) :
    Lookup :=
  match objGet own key with
  | some t => Lookup.entry t
  | none =>
    match objGet (inheritedFields proto) key with
    | some v => v
    | none =>
      if key = "__proto__" then
        (match proto with
          | some t => Lookup.entry t
          | none => Lookup.objectPrototype)
      else if key ∈ objectPrototypeKeys then Lookup.builtin key
      else Lookup.undefined

/-- The array index a property key denotes: the key is the canonical decimal
form of a natural number below `2^32 - 1`. -/
def arrayIndex (key : String) : Option Nat :=
  let cs := key.toList
  if cs ≠ [] ∧ cs.all Char.isDigit = true ∧ (cs.head? ≠ some '0' ∨ cs.length = 1) then
    let n := cs.foldl (fun acc c => acc * 10 + (c.toNat - 48)) 0
    if n < 4294967295 then some n else none
  else none

/-- The own properties in the order `for ... in` visits them: array indices in
ascending order, then the other keys in creation order. -/
def forInOwn (own : List (String × ImageEntry)) : List (String × ImageEntry) :=
  (own.filter (fun kv => (arrayIndex kv.1).isSome)).insertionSort
      (fun a b => (arrayIndex a.1).getD 0 ≤ (arrayIndex b.1).getD 0) ++
    own.filter (fun kv => !(arrayIndex kv.1).isSome)

/-- The keys `for (k in this.images)` visits, each with the value
`this.images[k]`: the own properties, then the fields of the prototype `timg`
that no own property hides. -/
def forIn (own : List (String × ImageEntry)) (proto : Option ImageEntry) :
    List (String × Lookup) :=
  (forInOwn own).map (fun kv => (kv.1, Lookup.entry kv.2)) ++
    (inheritedFields proto).filter (fun kv => (objGet own kv.1).isNone)

/-- Append one call to the trace. -/
def emit (e : Effect) (w : World) : World :=
  { w with trace := w.trace ++ [e] }

/-- The fields as the constructor leaves them, for a canvas element of size `cw`
by `ch` and a logical size `gamewidth` by `gameheight`. -/
def newFields (cw ch gamewidth gameheight : JsNum) : Eidolon :=
  { canvaswidth := cw
    canvasheight := ch
    offwidth := gamewidth
    offheight := gameheight
    scalex := cw / gamewidth
    scaley := ch / gameheight
    mousex := 0
    mousey := 0
    mouseclicked := false
    mousedown := false
    mousemoved := none
    images := []
    imagesProto := none
    imgcanvas := []
    imagesloaded := none
    ticktime := none
    gamefunc := none
    stopped := none
    lasttime := none
    timeout := none }

/-- The class constructor. `canvas` is the size of the canvas element found in
the document under the given id, if there is one, and `offHasContext` tells
whether the offscreen canvas has `getContext`. The listeners registered on the
canvas are host state: an event reaches the instance as a call of
`handleEvent`. -/
def construct (canvas : Option (JsNum × JsNum)) (offHasContext : Bool)
    (gamewidth gameheight : JsNum) : Constructed :=
  match canvas with
  | none => Constructed.bare
  | some (cw, ch) =>
    if offHasContext then Constructed.full (newFields cw ch gamewidth gameheight)
    else Constructed.surfaceOnly cw ch gamewidth gameheight

/-- The world right after construction. -/
def initWorld (s : Eidolon) : World :=
  { self := s, trace := [], timers := [], nextId := 0 }

/-- The write `this.images[timgname] = timg`: the key `__proto__` installs
`timg` as the prototype of the dictionary, any other key is an own property. -/
def imagesSet (s : Eidolon) (timgname : String) (timg : ImageEntry) : Eidolon :=
  if timgname = "__proto__" then { s with imagesProto := some timg }
  else { s with images := objSet s.images timgname timg }

/-- One iteration of the loop of `loadImages`. -/
def loadOne (w : World) (timgname : String) : World :=
  let h := w.nextId
  { w with
    nextId := h + 1
    trace := w.trace ++ [Effect.newImage h, Effect.setSrc h timgname,
      Effect.addEventListener h "load"]
    self := imagesSet w.self timgname ⟨false, h, none⟩ }

/-- Model of `loadImages(pimages, pendfunc)`. -/
def loadImages (pimages : List String) (pendfunc : Nat) (w : World) : World :=
  pimages.foldl loadOne
    { w with self := { w.self with
        images := [], imagesProto := none, imagesloaded := some pendfunc } }

/-- Model of `imageLoadTest()`. -/
def imageLoadTest (u : User) (w : World) : World × Completion :=
  let tstatus := (forIn w.self.images w.self.imagesProto).foldl
    (fun acc kv => JsVal.and acc kv.2.loaded) (JsVal.bool true)
  if tstatus.truthy then
    match w.self.imagesloaded with
    | none => (w, Completion.threw (JsError.typeError "this.imagesloaded is not a function"))
    | some f =>
      ({ w with trace := w.trace ++ [Effect.callEndfunc f], self := u.endfunc f w.self },
        Completion.normal)
  else (w, Completion.normal)

/-- The loop of the load branch of `handleEvent`. Only an own property holds a
`timg` whose `image` can equal the target: a field inherited from a prototype
`timg` is a value without an `image`, and the comparison with it fails. -/
def markLoaded (target : Handle) (imgs : List (String × ImageEntry)) :
    List (String × ImageEntry) :=
  imgs.map (fun kv => if target = kv.2.image then (kv.1, { kv.2 with loaded := true }) else kv)

/-- Model of `handleEvent(pevent)`. -/
def handleEvent (u : User) (pevent : Event) (w : World) : World × Completion :=
  let r : World × Bool × Completion :=
    if pevent.type = "click" then
      ({ w with self := { w.self with mouseclicked := true } }, true, Completion.normal)
    else if pevent.type = "keydown" then
      (emit (Effect.log "eHandleEvent keydown: [object KeyboardEvent]") w, false,
        Completion.normal)
    else if pevent.type = "mousedown" then
      ({ w with self := { w.self with mousedown := true } }, true, Completion.normal)
    else if pevent.type = "mouseup" then
      ({ w with self := { w.self with mousedown := false } }, true, Completion.normal)
    else if pevent.type = "mousemove" then
      ({ w with self := { w.self with mousemoved := some true } }, true, Completion.normal)
    else if pevent.type = "load" then
      let r := imageLoadTest u
        { w with self := { w.self with images := markLoaded pevent.target w.self.images } }
      (r.1, false, r.2)
    else (w, false, Completion.normal)
  match r with
  | (w1, true, Completion.normal) =>
    ({ w1 with self := { w1.self with
        mousex := pevent.offsetX / w1.self.scalex
        mousey := pevent.offsetY / w1.self.scaley } }, Completion.normal)
  | (w1, _, c) => (w1, c)

/-- Model of `imageSetUpPixels(pimage)`. The first test is written as in the
source: the negation yields a boolean, which is then compared with undefined.
The second reads `this.imgcanvas[pimage]`, an object the class never writes to,
so that only a member of `Object.prototype` can be found there. A `timg` that
passes both tests is an own property of `images`. -/
def imageSetUpPixels (host : Host) (pimage : String) (w : World) : World × Completion :=
  if JsVal.strictEq
      (JsVal.bool (!(propGet w.self.images w.self.imagesProto pimage).truthy))
      JsVal.undefined then
    (emit (Effect.log ("imageSetUpPixels: error, image not found! " ++ pimage)) w,
      Completion.normal)
  else if (objGet w.self.imgcanvas pimage).isSome ∨ pimage ∈ objectPrototypeKeys then
    (emit (Effect.log ("imageSetUpPixels: Warning, tried to set up canvas but it was " ++
      "already set up: " ++ pimage)) w, Completion.normal)
  else
    let tcanvas := w.nextId
    let w1 := { w with nextId := tcanvas + 1, trace := w.trace ++ [Effect.createCanvas tcanvas] }
    match propGet w1.self.images w1.self.imagesProto pimage with
    | Lookup.undefined =>
      (w1, Completion.threw
        (JsError.typeError "Cannot read properties of undefined (reading image)"))
    | Lookup.entry timg =>
      let cwidth := host.imageWidth timg.image
      let cheight := host.imageHeight timg.image
      let w2 := emit (Effect.canvasDrawImage tcanvas timg.image) w1
      let w3 := emit (Effect.getImageData tcanvas cwidth cheight) w2
      if cwidth = 0 ∨ cheight = 0 then (w3, Completion.threw JsError.indexSizeError)
      else
        let d : ImageData := ⟨cwidth, cheight, host.imagePixels timg.image⟩
        let timg1 : ImageEntry := { timg with imagedata := some d }
        ({ w3 with self := { w3.self with images := objSet w3.self.images pimage timg1 } },
          Completion.normal)
    | _ =>
      (w1, Completion.threw
        (JsError.typeError "Cannot read properties of undefined (reading width)"))

/-- The host primitive `setTimeout(this.eTick, delay, this)`: arms one timer. -/
def setTimeout (delay : Option ℚ) (w : World) : World × Handle :=
  ({ w with
      nextId := w.nextId + 1
      timers := w.timers ++ [w.nextId]
      trace := w.trace ++ [Effect.setTimeout delay w.nextId] }, w.nextId)

/-- Model of `startAnimation(pgamefunc, pticktime = 30)`; `now` is `Date.now()`. -/
def startAnimation (pgamefunc : Nat) (pticktime : Option ℚ) (now : ℚ) (w : World) : World :=
  let s1 := { w.self with
    ticktime := some (pticktime.getD 30)
    gamefunc := some pgamefunc
    stopped := some false
    lasttime := some now }
  let r := setTimeout s1.ticktime { w with self := s1 }
  { r.1 with self := { r.1.self with timeout := some r.2 } }

/-- Model of `finalizeGraphics()`: the composite of the offscreen surface. -/
def finalizeGraphics (w : World) : World :=
  emit (Effect.composite w.self.offwidth w.self.offheight w.self.canvaswidth
    w.self.canvasheight) w

/-- Model of `eTickFull()`; `now` is `Date.now()`. -/
def eTickFull (u : User) (now : ℚ) (w : World) : World × Completion :=
  if w.self.stopped = some true then (w, Completion.normal)
  else
    let ttime := w.self.lasttime
    let ctime := now
    match w.self.gamefunc with
    | none => (w, Completion.threw (JsError.typeError "this.gamefunc is not a function"))
    | some g =>
      let elapsed := ttime.map (fun t => ctime - t)
      let w1 := { w with
        trace := w.trace ++ [Effect.callGamefunc g elapsed w.self]
        self := u.gamefunc g elapsed w.self }
      let w2 := finalizeGraphics w1
      let w3 := { w2 with self := { w2.self with lasttime := some ctime } }
      let r := setTimeout w3.self.ticktime w3
      ({ r.1 with self := { r.1.self with
          timeout := some r.2
          mouseclicked := false
          mousemoved := some false } }, Completion.normal)

/-- Model of `eTick(eidolonobj)`. -/
def eTick (u : User) (now : ℚ) (w : World) : World × Completion :=
  eTickFull u now w

/-- Model of `stopEidolon()`. -/
def stopEidolon (w : World) : World :=
  { w with self := { w.self with stopped := some true } }

/-- The host fires the armed timer `t`: it leaves the armed set and `eTick` runs. -/
def fire (u : User) (t : Handle) (now : ℚ) (w : World) : World × Completion :=
  if t ∈ w.timers then eTick u now { w with timers := w.timers.erase t }
  else (w, Completion.normal)

/-- Model of `drawImage(imgname, px, py)`. The arguments `timage.width` and
`timage.height` are read before the host is called. -/
def drawImage (host : Host) (imgname : String) (px py : ℚ) (w : World) : World × Completion :=
  match propGet w.self.images w.self.imagesProto imgname with
  | Lookup.undefined =>
    (w, Completion.threw (JsError.typeError "Cannot read properties of undefined (reading image)"))
  | Lookup.entry timg =>
    let tw : ℚ := host.imageWidth timg.image
    let th : ℚ := host.imageHeight timg.image
    (emit (Effect.offDrawImage (some timg.image) 0 0 tw th px py tw th) w, Completion.normal)
  | _ =>
    (w, Completion.threw (JsError.typeError "Cannot read properties of undefined (reading width)"))

/-- Model of `drawImageFull`; the caller who omits `destwidth` or `destheight`
passes the default `0`. A value without an `image` field makes `timage`
undefined, which is handed to the host, and the host rejects it. -/
def drawImageFull (imgname : String) (px py spriteposx spriteposy spritew spriteh
    destwidth destheight : ℚ) (w : World) : World × Completion :=
  let destwidth := if destwidth ≤ 0 then spritew else destwidth
  let destheight := if destheight ≤ 0 then spriteh else destheight
  match propGet w.self.images w.self.imagesProto imgname with
  | Lookup.undefined =>
    (w, Completion.threw (JsError.typeError "Cannot read properties of undefined (reading image)"))
  | Lookup.entry timg =>
    (emit (Effect.offDrawImage (some timg.image) spriteposx spriteposy spritew spriteh px py
      destwidth destheight) w, Completion.normal)
  | _ =>
    (emit (Effect.offDrawImage none spriteposx spriteposy spritew spriteh px py
      destwidth destheight) w,
      Completion.threw (JsError.typeError "drawImage: the provided value is not an image"))

/-- Model of `getPixel(pimage, px, py)`. -/
def getPixel (host : Host) (pimage : String) (px py : ℚ) (w : World) :
    Except JsError (List JsVal) :=
  match propGet w.self.images w.self.imagesProto pimage with
  | Lookup.undefined =>
    Except.error (JsError.typeError "Cannot read properties of undefined (reading image)")
  | Lookup.entry timg =>
    let tnum := ((py * (host.imageWidth timg.image : ℚ)) + px) * 4
    match timg.imagedata with
    | none => Except.error (JsError.typeError "Cannot read properties of undefined")
    | some d => Except.ok ((List.range 4).map (fun ti => d.index (tnum + (ti : ℚ))))
  | _ =>
    Except.error (JsError.typeError "Cannot read properties of undefined (reading width)")

/-- The bytes the documentation of `getPixel` promises: offsets `tnum .. tnum + 3`
of the captured pixel data. -/
def pixelBytes (d : ImageData) (x y : Nat) : List JsVal :=
  (List.range 4).map (fun ti =>
    match d.data.get? (((y * d.width) + x) * 4 + ti) with
    | some b => JsVal.num b
    | none => JsVal.undefined)

/-- Deliver load notifications for the handles `hs`, in order. -/
def deliver (u : User) : List Handle → World → World
  | [], w => w
  | h :: hs, w => deliver u hs (handleEvent u ⟨"load", h, 0, 0⟩ w).1

/-- The continuations invoked so far, oldest first. -/
def endfuncCalls (tr : List Effect) : List Nat :=
  tr.filterMap (fun e => match e with
    | Effect.callEndfunc f => some f
    | _ => none)

/-- The instance states the frame function has been handed, oldest first. -/
def framesSeen (tr : List Effect) : List Eidolon :=
  tr.filterMap (fun e => match e with
    | Effect.callGamefunc _ _ s => some s
    | _ => none)

/-- The image handles of the current batch. -/
def batchHandles (w : World) : List Handle :=
  w.self.images.map (fun kv => kv.2.image)

/-- Timer fires with no event in between, at the timestamps `nows`. -/
def ticks (u : User) : List ℚ → World → World
  | [], w => w
  | now :: nows, w => ticks u nows (eTickFull u now w).1

/-- Calls of the animation life cycle. -/
inductive Op where
  | start (pgamefunc : Nat) (pticktime : Option ℚ) (now : ℚ)
  | stop
  | fire (t : Handle) (now : ℚ)

/-- One life-cycle call. -/
def step (u : User) (w : World) : Op → World
  | Op.start g t now => startAnimation g t now w
  | Op.stop => stopEidolon w
  | Op.fire t now => (fire u t now w).1

/-- A sequence of life-cycle calls, oldest first. -/
def run (u : User) (ops : List Op) (w : World) : World :=
  ops.foldl (step u) w

/-- Whether every `startAnimation` of the sequence is called while no timer is armed. -/
def startsWhenIdle (u : User) : List Op → World → Bool
  | [], _ => true
  | op :: ops, w =>
    (match op with
      | Op.start _ _ _ => w.timers.isEmpty
      | _ => true) && startsWhenIdle u ops (step u w op)

/-- A freshly constructed instance of logical size 640 by 480 over a canvas of
the same size, as in `eidolontest.js`. -/
def demo : World := initWorld (newFields 640 480 640 480)

/-- A host whose every image is one pixel with the bytes 10, 20, 30, 255. -/
def demoHost : Host := ⟨fun _ => 1, fun _ => 1, fun _ => [10, 20, 30, 255]⟩

/-- The state invariant of the tick loop when `startAnimation` is never called
over an armed timer: at most one timer is armed, exactly one while `stopped` is
false, and an armed timer has a frame function to call. -/
def timerInv (w : World) : Prop :=
  w.timers.length ≤ 1 ∧ (w.self.stopped = some false → w.timers.length = 1) ∧
    (w.timers ≠ [] → ∃ g, w.self.gamefunc = some g)

/-- A world in which the batch `["a.png"]` is loaded and set up for pixel reads. -/
def demoPixels : World :=
  (imageSetUpPixels demoHost "a.png" (deliver idle [0] (loadImages ["a.png"] 7 demo))).1

end Eidolon

/-! ## Binary64 division: the rounding is exact on representable quotients -/

namespace JsNum

theorem log2Loop_spec : ∀ (fuel n : Nat), 0 < n → n ≤ fuel →
    2 ^ log2Loop fuel n ≤ n ∧ n < 2 ^ (log2Loop fuel n + 1) := by
  intro fuel
  induction fuel with
  | zero => intro n h1 h2; omega
  | succ f ih =>
    intro n h1 h2
    by_cases h : n < 2
    · have h1 : n = 1 := by omega
      subst h1
      simp [log2Loop]
    · simp only [log2Loop, h, if_false]
      obtain ⟨a, b⟩ := ih (n / 2) (by omega) (by omega)
      constructor
      · rw [pow_succ]; omega
      · rw [pow_succ]; omega

theorem log2_spec (n : Nat) (h : 0 < n) : 2 ^ log2 n ≤ n ∧ n < 2 ^ (log2 n + 1) :=
  log2Loop_spec n n h (le_refl n)

theorem log2_spec_rat (n : Nat) (h : 0 < n) :
    (2 : ℚ) ^ (log2 n : ℤ) ≤ n ∧ (n : ℚ) < (2 : ℚ) ^ ((log2 n : ℤ) + 1) := by
  obtain ⟨a, b⟩ := log2_spec n h
  constructor
  · rw [zpow_natCast]; exact_mod_cast a
  · have : ((log2 n : ℤ) + 1) = ((log2 n + 1 : ℕ) : ℤ) := by push_cast; ring
    rw [this, zpow_natCast]; exact_mod_cast b

theorem floorLog2Quot_cond (n d : Nat) :
    floorLog2Quot n d =
      if (2 : ℚ) ^ ((log2 n : ℤ) - (log2 d : ℤ)) * d ≤ n then (log2 n : ℤ) - (log2 d : ℤ)
      else (log2 n : ℤ) - (log2 d : ℤ) - 1 := by
  unfold floorLog2Quot
  simp only
  by_cases hl : (0 : ℤ) ≤ (log2 n : ℤ) - (log2 d : ℤ)
  · rw [if_pos hl]
    have hz : (2 : ℚ) ^ ((log2 n : ℤ) - (log2 d : ℤ)) =
        ((2 ^ ((log2 n : ℤ) - (log2 d : ℤ)).toNat : ℕ) : ℚ) := by
      conv_lhs => rw [← Int.toNat_of_nonneg hl]
      rw [zpow_natCast]; push_cast; rfl
    have hiff : (d * 2 ^ ((log2 n : ℤ) - (log2 d : ℤ)).toNat ≤ n) ↔
        (2 : ℚ) ^ ((log2 n : ℤ) - (log2 d : ℤ)) * d ≤ n := by
      rw [hz]
      constructor
      · intro h; rw [mul_comm]; exact_mod_cast h
      · intro h; rw [mul_comm] at h; exact_mod_cast h
    by_cases hc : d * 2 ^ ((log2 n : ℤ) - (log2 d : ℤ)).toNat ≤ n
    · rw [if_pos hc, if_pos (hiff.mp hc)]
    · rw [if_neg hc, if_neg (fun h => hc (hiff.mpr h))]
  · rw [if_neg hl]
    have hl2 : (0 : ℤ) ≤ -((log2 n : ℤ) - (log2 d : ℤ)) := by omega
    have hz : (2 : ℚ) ^ (-((log2 n : ℤ) - (log2 d : ℤ))) =
        ((2 ^ (-((log2 n : ℤ) - (log2 d : ℤ))).toNat : ℕ) : ℚ) := by
      conv_lhs => rw [← Int.toNat_of_nonneg hl2]
      rw [zpow_natCast]; push_cast; rfl
    have hpos : (0 : ℚ) < (2 : ℚ) ^ (-((log2 n : ℤ) - (log2 d : ℤ))) := by positivity
    have hiff : (d ≤ n * 2 ^ (-((log2 n : ℤ) - (log2 d : ℤ))).toNat) ↔
        (2 : ℚ) ^ ((log2 n : ℤ) - (log2 d : ℤ)) * d ≤ n := by
      have e1 : (d ≤ n * 2 ^ (-((log2 n : ℤ) - (log2 d : ℤ))).toNat) ↔
          (d : ℚ) ≤ n * (2 : ℚ) ^ (-((log2 n : ℤ) - (log2 d : ℤ))) := by
        rw [hz]
        constructor
        · intro h; exact_mod_cast h
        · intro h; exact_mod_cast h
      rw [e1, zpow_neg, ← div_eq_mul_inv, le_div_iff₀ (by positivity), mul_comm]
    by_cases hc : d ≤ n * 2 ^ (-((log2 n : ℤ) - (log2 d : ℤ))).toNat
    · rw [if_pos hc, if_pos (hiff.mp hc)]
    · rw [if_neg hc, if_neg (fun h => hc (hiff.mpr h))]

theorem floorLog2Quot_spec (n d : Nat) (hn : 0 < n) (hd : 0 < d) :
    (2 : ℚ) ^ floorLog2Quot n d ≤ (n : ℚ) / d ∧
    (n : ℚ) / d < (2 : ℚ) ^ (floorLog2Quot n d + 1) := by
  obtain ⟨na, nb⟩ := log2_spec_rat n hn
  obtain ⟨da, db⟩ := log2_spec_rat d hd
  have hdq : (0 : ℚ) < d := by exact_mod_cast hd
  rw [floorLog2Quot_cond]
  have h2 : (0 : ℚ) < 2 := by norm_num
  by_cases hc : (2 : ℚ) ^ ((log2 n : ℤ) - (log2 d : ℤ)) * d ≤ n
  · rw [if_pos hc]
    constructor
    · rw [le_div_iff₀ hdq]; exact hc
    · rw [div_lt_iff₀ hdq]
      calc (n : ℚ) < (2 : ℚ) ^ ((log2 n : ℤ) + 1) := nb
        _ = (2 : ℚ) ^ ((log2 n : ℤ) - (log2 d : ℤ) + 1) * (2 : ℚ) ^ (log2 d : ℤ) := by
            rw [← zpow_add₀ (by norm_num : (2 : ℚ) ≠ 0)]; congr 1; ring
        _ ≤ (2 : ℚ) ^ ((log2 n : ℤ) - (log2 d : ℤ) + 1) * d := by
            apply mul_le_mul_of_nonneg_left da; positivity
  · rw [if_neg hc]
    push_neg at hc
    constructor
    · rw [le_div_iff₀ hdq]
      calc (2 : ℚ) ^ ((log2 n : ℤ) - (log2 d : ℤ) - 1) * d
          ≤ (2 : ℚ) ^ ((log2 n : ℤ) - (log2 d : ℤ) - 1) * (2 : ℚ) ^ ((log2 d : ℤ) + 1) := by
            apply mul_le_mul_of_nonneg_left (le_of_lt db); positivity
        _ = (2 : ℚ) ^ (log2 n : ℤ) := by
            rw [← zpow_add₀ (by norm_num : (2 : ℚ) ≠ 0)]; congr 1; ring
        _ ≤ n := na
    · rw [div_lt_iff₀ hdq]
      have : (log2 n : ℤ) - (log2 d : ℤ) - 1 + 1 = (log2 n : ℤ) - (log2 d : ℤ) := by ring
      rw [this]; exact hc


theorem two_zpow_bracket (x : ℚ) (a b : ℤ) (ha : (2 : ℚ) ^ a ≤ x) (hb : x < (2 : ℚ) ^ (b + 1)) :
    a ≤ b := by
  have h : (2 : ℚ) ^ a < (2 : ℚ) ^ (b + 1) := lt_of_le_of_lt ha hb
  have := (zpow_lt_zpow_iff_right₀ (by norm_num : (1 : ℚ) < 2)).mp h
  omega

theorem roundQuot_exact (neg : Bool) (n d M : Nat) (K : Int) (hn : 0 < n) (hd : 0 < d)
    (hM : M < 2 ^ 53) (hK1 : -1074 ≤ K) (hK2 : K ≤ 971) (hMK : 2 ^ 52 ≤ M ∨ K = -1074)
    (hq : (n : ℚ) / d = M * (2 : ℚ) ^ K) : roundQuot neg n d = finite neg M K := by
  have hdq : (0 : ℚ) < d := by exact_mod_cast hd
  have hnq : (0 : ℚ) < n := by exact_mod_cast hn
  have h2K : (0 : ℚ) < (2 : ℚ) ^ K := by positivity
  have hMpos : 0 < M := by
    rcases Nat.eq_zero_or_pos M with h | h
    · exfalso
      rw [h] at hq
      have : (0 : ℚ) < (n : ℚ) / d := div_pos hnq hdq
      rw [hq] at this
      simp at this
    · exact h
  obtain ⟨ma, mb⟩ := log2_spec_rat M hMpos
  obtain ⟨ma', mb'⟩ := log2_spec M hMpos
  obtain ⟨la, lb⟩ := floorLog2Quot_spec n d hn hd
  rw [hq] at la lb
  have hx1 : (2 : ℚ) ^ ((log2 M : ℤ) + K) ≤ M * (2 : ℚ) ^ K := by
    rw [zpow_add₀ (by norm_num : (2 : ℚ) ≠ 0)]
    exact mul_le_mul_of_nonneg_right ma (le_of_lt h2K)
  have hx2 : (M : ℚ) * (2 : ℚ) ^ K < (2 : ℚ) ^ ((log2 M : ℤ) + K + 1) := by
    have : (log2 M : ℤ) + K + 1 = ((log2 M : ℤ) + 1) + K := by ring
    rw [this, zpow_add₀ (by norm_num : (2 : ℚ) ≠ 0)]
    exact mul_lt_mul_of_pos_right mb h2K
  have hL : floorLog2Quot n d = (log2 M : ℤ) + K :=
    le_antisymm (two_zpow_bracket _ _ _ la hx2) (two_zpow_bracket _ _ _ hx1 lb)
  have hk : max (floorLog2Quot n d - 52) (-1074) = K := by
    rw [hL]
    by_cases hnorm : 2 ^ 52 ≤ M
    · have h1 : log2 M < 53 := by
        by_contra hcon
        have : 2 ^ 53 ≤ 2 ^ log2 M := Nat.pow_le_pow_right (by norm_num) (by omega)
        omega
      have h2 : 52 < log2 M + 1 := by
        by_contra hcon
        have : 2 ^ (log2 M + 1) ≤ 2 ^ 52 := Nat.pow_le_pow_right (by norm_num) (by omega)
        omega
      omega
    · have hKe : K = -1074 := by
        rcases hMK with h | h
        · exact absurd h hnorm
        · exact h
      have h1 : log2 M < 52 := by
        by_contra hcon
        have : 2 ^ 52 ≤ 2 ^ log2 M := Nat.pow_le_pow_right (by norm_num) (by omega)
        omega
      omega
  have hfinal : ∀ num den : Nat, 0 < den → num = M * den →
      (if 971 < (if (if den < 2 * (num % den) ∨ (2 * (num % den) = den ∧ num / den % 2 = 1)
            then num / den + 1 else num / den) = 2 ^ 53 then K + 1 else K)
        then infinity neg
        else finite neg
          (if (if den < 2 * (num % den) ∨ (2 * (num % den) = den ∧ num / den % 2 = 1)
            then num / den + 1 else num / den) = 2 ^ 53 then 2 ^ 52
           else (if den < 2 * (num % den) ∨ (2 * (num % den) = den ∧ num / den % 2 = 1)
            then num / den + 1 else num / den))
          (if (if den < 2 * (num % den) ∨ (2 * (num % den) = den ∧ num / den % 2 = 1)
            then num / den + 1 else num / den) = 2 ^ 53 then K + 1 else K)) =
      finite neg M K := by
    intro num den hden hnum
    have hr : num % den = 0 := by rw [hnum]; exact Nat.mul_mod_left M den
    have hqd : num / den = M := by rw [hnum]; exact Nat.mul_div_cancel M hden
    have hc : ¬(den < 2 * 0 ∨ (2 * 0 = den ∧ M % 2 = 1)) := by omega
    rw [hr, hqd]
    simp only [hc, if_false]
    have hM2 : M ≠ 2 ^ 53 := by omega
    simp only [hM2, if_false]
    have : ¬ (971 : ℤ) < K := by omega
    simp only [this, if_false]
  unfold roundQuot
  rw [if_neg (by omega : ¬ n = 0)]
  simp only [hk]
  by_cases hK : K ≤ 0
  · simp only [hK, if_true]
    apply hfinal _ _ hd
    have hz : (2 : ℚ) ^ (-K) = ((2 ^ (-K).toNat : ℕ) : ℚ) := by
      conv_lhs => rw [← Int.toNat_of_nonneg (by omega : (0 : ℤ) ≤ -K)]
      rw [zpow_natCast]; push_cast; rfl
    have : ((n * 2 ^ (-K).toNat : ℕ) : ℚ) = ((M * d : ℕ) : ℚ) := by
      push_cast
      have hz' : ((2 : ℚ) ^ (-K).toNat) = (2 : ℚ) ^ (-K) := by
        rw [hz]; push_cast; rfl
      rw [hz', zpow_neg]
      rw [div_eq_iff (ne_of_gt hdq)] at hq
      rw [hq]
      field_simp
      ring
    exact_mod_cast this
  · simp only [hK, if_false]
    apply hfinal _ _ (Nat.mul_pos hd (by positivity))
    have hz : (2 : ℚ) ^ K = ((2 ^ K.toNat : ℕ) : ℚ) := by
      conv_lhs => rw [← Int.toNat_of_nonneg (by omega : (0 : ℤ) ≤ K)]
      rw [zpow_natCast]; push_cast; rfl
    have : ((n : ℕ) : ℚ) = ((M * (d * 2 ^ K.toNat) : ℕ) : ℚ) := by
      rw [div_eq_iff (ne_of_gt hdq)] at hq
      rw [hq, hz]
      push_cast
      ring
    exact_mod_cast this

theorem div_exact (m n M : Nat) (e f K : Int) (hm : 0 < m) (hn : 0 < n)
    (hM : M < 2 ^ 53) (hK1 : -1074 ≤ K) (hK2 : K ≤ 971) (hMK : 2 ^ 52 ≤ M ∨ K = -1074)
    (hq : ((m : ℚ) * (2 : ℚ) ^ e) / ((n : ℚ) * (2 : ℚ) ^ f) = M * (2 : ℚ) ^ K) :
    div (finite false m e) (finite false n f) = finite false M K := by
  have hnq : (0 : ℚ) < n := by exact_mod_cast hn
  have h2 : (2 : ℚ) ≠ 0 := by norm_num
  have hn0 : ¬ n = 0 := by omega
  by_cases hef : e ≤ f
  · simp only [div, hn0, hef, if_true, if_false, Bool.xor_false]
    apply roundQuot_exact _ _ _ _ _ hm (Nat.mul_pos hn (by positivity)) hM hK1 hK2 hMK
    have hz : (2 : ℚ) ^ (f - e) = ((2 ^ (f - e).toNat : ℕ) : ℚ) := by
      conv_lhs => rw [← Int.toNat_of_nonneg (by omega : (0 : ℤ) ≤ f - e)]
      rw [zpow_natCast]; push_cast; rfl
    rw [← hq]
    push_cast
    have hz' : ((2 : ℚ) ^ (f - e).toNat) = (2 : ℚ) ^ (f - e) := by
      rw [hz]; push_cast; rfl
    rw [hz', zpow_sub₀ h2]
    field_simp
  · simp only [div, hn0, hef, if_false, Bool.xor_false]
    apply roundQuot_exact _ _ _ _ _ (Nat.mul_pos hm (by positivity)) hn hM hK1 hK2 hMK
    have hz : (2 : ℚ) ^ (e - f) = ((2 ^ (e - f).toNat : ℕ) : ℚ) := by
      conv_lhs => rw [← Int.toNat_of_nonneg (by omega : (0 : ℤ) ≤ e - f)]
      rw [zpow_natCast]; push_cast; rfl
    rw [← hq]
    push_cast
    have hz' : ((2 : ℚ) ^ (e - f).toNat) = (2 : ℚ) ^ (e - f) := by
      rw [hz]; push_cast; rfl
    rw [hz', zpow_sub₀ h2]
    field_simp
    ring

end JsNum

namespace Eidolon

/-! ## Unfolding `handleEvent` by event type -/

theorem handleEvent_load (u : User) (e : Event) (w : World) (ht : e.type = "load") :
    handleEvent u e w =
      imageLoadTest u { w with self := { w.self with images := markLoaded e.target w.self.images } } := by
  simp [handleEvent, ht]

theorem handleEvent_click (u : User) (e : Event) (w : World) (ht : e.type = "click") :
    handleEvent u e w =
      ({ w with self := { w.self with
          mouseclicked := true
          mousex := e.offsetX / w.self.scalex
          mousey := e.offsetY / w.self.scaley } }, Completion.normal) := by
  simp [handleEvent, ht]

theorem handleEvent_mousedown (u : User) (e : Event) (w : World) (ht : e.type = "mousedown") :
    handleEvent u e w =
      ({ w with self := { w.self with
          mousedown := true
          mousex := e.offsetX / w.self.scalex
          mousey := e.offsetY / w.self.scaley } }, Completion.normal) := by
  simp [handleEvent, ht]

theorem handleEvent_mouseup (u : User) (e : Event) (w : World) (ht : e.type = "mouseup") :
    handleEvent u e w =
      ({ w with self := { w.self with
          mousedown := false
          mousex := e.offsetX / w.self.scalex
          mousey := e.offsetY / w.self.scaley } }, Completion.normal) := by
  simp [handleEvent, ht]

theorem handleEvent_mousemove (u : User) (e : Event) (w : World) (ht : e.type = "mousemove") :
    handleEvent u e w =
      ({ w with self := { w.self with
          mousemoved := some true
          mousex := e.offsetX / w.self.scalex
          mousey := e.offsetY / w.self.scaley } }, Completion.normal) := by
  simp [handleEvent, ht]

theorem handleEvent_keydown (u : User) (e : Event) (w : World) (ht : e.type = "keydown") :
    handleEvent u e w =
      (emit (Effect.log "eHandleEvent keydown: [object KeyboardEvent]") w, Completion.normal) := by
  simp [handleEvent, ht]

theorem handleEvent_other (u : User) (e : Event) (w : World)
    (ht : e.type ∉ ["click", "keydown", "mousedown", "mouseup", "mousemove", "load"]) :
    handleEvent u e w = (w, Completion.normal) := by
  simp only [List.mem_cons, List.mem_singleton, List.not_mem_nil, or_false, not_or] at ht
  obtain ⟨h1, h2, h3, h4, h5, h6⟩ := ht
  simp [handleEvent, h1, h2, h3, h4, h5, h6]

theorem imageLoadTest_cases (u : User) (w : World) :
    imageLoadTest u w = (w, Completion.normal) ∨
    imageLoadTest u w =
      (w, Completion.threw (JsError.typeError "this.imagesloaded is not a function")) ∨
    ∃ f, w.self.imagesloaded = some f ∧
      imageLoadTest u w =
        ({ w with trace := w.trace ++ [Effect.callEndfunc f], self := u.endfunc f w.self },
          Completion.normal) := by
  unfold imageLoadTest
  by_cases h : ((forIn w.self.images w.self.imagesProto).foldl
      (fun acc kv => JsVal.and acc kv.2.loaded) (JsVal.bool true)).truthy = true
  · cases hf : w.self.imagesloaded with
    | none => right; left; simp [h]
    | some f => right; right; exact ⟨f, rfl, by simp [h]⟩
  · left; simp [h]

/-! ## Tick loop -/

/-- C4: once `stopped` is true a timer fire does nothing: `eTickFull` calls
neither the frame function nor the composite, arms no timer and changes no
field, so the timer in flight at the moment of `stopEidolon` leaves the armed
set when it fires and nothing else happens. -/
theorem eTickFull_stopped (u : User) (now : ℚ) (w : World)
    (h : w.self.stopped = some true) :
    eTickFull u now w = (w, Completion.normal) ∧
    (∀ t ∈ w.timers,
      fire u t now w = ({ w with timers := w.timers.erase t }, Completion.normal)) ∧
    (∀ w0 : World, (stopEidolon w0).self.stopped = some true ∧
      (stopEidolon w0).trace = w0.trace ∧ (stopEidolon w0).timers = w0.timers) := by
  have h1 : ∀ w1 : World, w1.self.stopped = some true →
      eTickFull u now w1 = (w1, Completion.normal) := by
    intro w1 h1
    simp [eTickFull, h1]
  refine ⟨h1 w h, ?_, ?_⟩
  · intro t ht
    simp only [fire, eTick, ht, if_true]
    exact h1 _ h
  · intro w0
    simp [stopEidolon]

/-- Witness of C4: a started instance that was stopped, and the fire of its timer. -/
theorem eTickFull_stopped_witness :
    (stopEidolon (startAnimation 1 none 0 demo)).self.stopped = some true ∧
    eTickFull idle 30 (stopEidolon (startAnimation 1 none 0 demo)) =
      (stopEidolon (startAnimation 1 none 0 demo), Completion.normal) :=
  ⟨rfl, (eTickFull_stopped idle 30 (stopEidolon (startAnimation 1 none 0 demo)) rfl).1⟩

/-- C5: a tick of a running instance calls the frame function with
`now - lasttime`, then the composite, then records `lasttime = now`, arms one
timer for `ticktime` and clears `mouseclicked` and `mousemoved`; each happens
once and in that order, and `lasttime` is the timestamp `startAnimation`
recorded until a tick replaces it. -/
theorem eTickFull_running (u : User) (now t : ℚ) (g : Nat) (w : World)
    (hs : w.self.stopped = some false) (hg : w.self.gamefunc = some g)
    (hl : w.self.lasttime = some t) :
    eTickFull u now w =
      ({ self := { u.gamefunc g (some (now - t)) w.self with
            lasttime := some now
            timeout := some w.nextId
            mouseclicked := false
            mousemoved := some false }
         trace := w.trace ++
          [Effect.callGamefunc g (some (now - t)) w.self,
           Effect.composite (u.gamefunc g (some (now - t)) w.self).offwidth
            (u.gamefunc g (some (now - t)) w.self).offheight
            (u.gamefunc g (some (now - t)) w.self).canvaswidth
            (u.gamefunc g (some (now - t)) w.self).canvasheight,
           Effect.setTimeout (u.gamefunc g (some (now - t)) w.self).ticktime w.nextId]
         timers := w.timers ++ [w.nextId]
         nextId := w.nextId + 1 }, Completion.normal) ∧
    (∀ (f : Nat) (tick : Option ℚ) (start : ℚ) (w0 : World),
      (startAnimation f tick start w0).self.lasttime = some start ∧
      (startAnimation f tick start w0).self.stopped = some false ∧
      (startAnimation f tick start w0).self.gamefunc = some f) := by
  constructor
  · simp [eTickFull, hs, hg, hl, finalizeGraphics, emit, setTimeout]
  · intro f tick start w0
    simp [startAnimation, setTimeout]

/-- Witness of C5: the first tick after `startAnimation`. -/
theorem eTickFull_running_witness :
    (eTickFull idle 30 (startAnimation 1 none 0 demo)).1.self.lasttime = some 30 ∧
    (eTickFull idle 30 (startAnimation 1 none 0 demo)).1.timers = [0, 1] := by
  have h := (eTickFull_running idle 30 0 1 (startAnimation 1 none 0 demo) rfl rfl rfl).1
  rw [h]
  exact ⟨rfl, rfl⟩

/-! ## Ticks with no event in between -/

theorem framesSeen_append (a b : List Effect) :
    framesSeen (a ++ b) = framesSeen a ++ framesSeen b := by
  simp [framesSeen, List.filterMap_append]

theorem eTickFull_cases (u : User) (now : ℚ) (w : World) :
    (eTickFull u now w).1 = w ∨
    (framesSeen (eTickFull u now w).1.trace = framesSeen w.trace ++ [w.self] ∧
      (eTickFull u now w).1.self.mouseclicked = false ∧
      (eTickFull u now w).1.self.mousemoved = some false) := by
  unfold eTickFull
  by_cases hs : w.self.stopped = some true
  · left; simp [hs]
  · cases hg : w.self.gamefunc with
    | none => left; simp [hs]
    | some g =>
      right
      simp [hs, finalizeGraphics, emit, setTimeout, framesSeen, List.filterMap_append]

theorem ticks_cleared (u : User) (nows : List ℚ) : ∀ w : World,
    w.self.mouseclicked = false → w.self.mousemoved = some false →
    ∃ rest, framesSeen (ticks u nows w).trace = framesSeen w.trace ++ rest ∧
      ∀ s ∈ rest, s.mouseclicked = false ∧ s.mousemoved = some false := by
  induction nows with
  | nil => intro w _ _; exact ⟨[], by simp [ticks], by simp⟩
  | cons now nows ih =>
    intro w hc hm
    rcases eTickFull_cases u now w with h | ⟨ht, hc1, hm1⟩
    · obtain ⟨rest, hr, hall⟩ := ih (eTickFull u now w).1 (by rw [h]; exact hc) (by rw [h]; exact hm)
      refine ⟨rest, ?_, hall⟩
      rw [ticks, hr, h]
    · obtain ⟨rest, hr, hall⟩ := ih (eTickFull u now w).1 hc1 hm1
      refine ⟨w.self :: rest, ?_, ?_⟩
      · rw [ticks, hr, ht]; simp
      · intro s hs
        rcases List.mem_cons.mp hs with h | h
        · rw [h]; exact ⟨hc, hm⟩
        · exact hall s h

theorem ticks_first (u : User) (now : ℚ) (nows : List ℚ) (g : Nat) (w : World)
    (hs : w.self.stopped = some false) (hg : w.self.gamefunc = some g) :
    ∃ rest, framesSeen (ticks u (now :: nows) w).trace = framesSeen w.trace ++ w.self :: rest ∧
      ∀ s ∈ rest, s.mouseclicked = false ∧ s.mousemoved = some false := by
  rcases eTickFull_cases u now w with h | ⟨ht, hc1, hm1⟩
  · exfalso
    have h2 := congrArg World.trace h
    simp [eTickFull, hs, hg, finalizeGraphics, emit, setTimeout] at h2
  · obtain ⟨rest, hr, hall⟩ := ticks_cleared u nows (eTickFull u now w).1 hc1 hm1
    refine ⟨rest, ?_, hall⟩
    rw [ticks, hr, ht]; simp

/-! ## Input snapshot -/

/-- Counterexample to C7: the quotients are binary64 quotients, not exact
rationals. With logical width 600 over a display width 1024, `scalex` is the
number `7686143364045647 * 2^-52`, not `1024 / 600`, and a click at offset 384
gives `mousex = 7916483719987199 * 2^-45`, just below `384 / (1024 / 600) = 225`;
with a display width of zero `scalex` is `0` and the same click gives
`mousex = Infinity`. -/
theorem pointer_exact_counterexample :
    (newFields 1024 768 600 450).scalex = JsNum.finite false 7686143364045647 (-52) ∧
    (newFields 1024 768 600 450).scalex.toRat ≠ some ((1024 : ℚ) / 600) ∧
    (handleEvent idle ⟨"click", 0, 384, 0⟩
      (initWorld (newFields 1024 768 600 450))).1.self.mousex =
      JsNum.finite false 7916483719987199 (-45) ∧
    (handleEvent idle ⟨"click", 0, 384, 0⟩
      (initWorld (newFields 1024 768 600 450))).1.self.mousex.toRat ≠
      some ((384 : ℚ) / ((1024 : ℚ) / 600)) ∧
    (handleEvent idle ⟨"click", 0, 384, 0⟩
      (initWorld (newFields 0 768 600 450))).1.self.mousex = JsNum.infinity false := by
  have h1 : (newFields 1024 768 600 450).scalex =
      JsNum.finite false 7686143364045647 (-52) := by decide
  have h2 : (handleEvent idle ⟨"click", 0, 384, 0⟩
      (initWorld (newFields 1024 768 600 450))).1.self.mousex =
      JsNum.finite false 7916483719987199 (-45) := by decide
  refine ⟨h1, ?_, h2, ?_, by decide⟩
  · rw [h1]
    simp only [JsNum.toRat, ne_eq, Option.some.injEq]
    norm_num
  · rw [h2]
    simp only [JsNum.toRat, ne_eq, Option.some.injEq]
    norm_num

/-- C7, amended: construction over a canvas of size `cw` by `ch` with logical
size `gw` by `gh` sets `scalex` and `scaley` to the binary64 quotients `cw / gw`
and `ch / gh`; a click, mousedown, mouseup or mousemove at offset `(ox, oy)`
leaves `mousex` and `mousey` the binary64 quotients `ox / scalex` and
`oy / scaley` and the scales as they were; keydown and load events leave
`mousex` and `mousey` unchanged (for load, as long as the continuation it may
call does not write them). The binary64 quotient of two positive numbers is the
exact quotient whenever that is a binary64 value `M * 2^K`. -/
theorem pointer_scaling (u : User) (cw ch gw gh : JsNum) :
    construct (some (cw, ch)) true gw gh = Constructed.full (newFields cw ch gw gh) ∧
    (newFields cw ch gw gh).scalex = JsNum.div cw gw ∧
    (newFields cw ch gw gh).scaley = JsNum.div ch gh ∧
    (∀ (w : World) (e : Event),
      (e.type ∈ ["click", "mousedown", "mouseup", "mousemove"] →
        (handleEvent u e w).1.self.mousex = JsNum.div e.offsetX w.self.scalex ∧
        (handleEvent u e w).1.self.mousey = JsNum.div e.offsetY w.self.scaley ∧
        (handleEvent u e w).1.self.scalex = w.self.scalex ∧
        (handleEvent u e w).1.self.scaley = w.self.scaley) ∧
      (e.type = "keydown" →
        (handleEvent u e w).1.self.mousex = w.self.mousex ∧
        (handleEvent u e w).1.self.mousey = w.self.mousey) ∧
      (e.type = "load" →
        (∀ f x, (u.endfunc f x).mousex = x.mousex ∧ (u.endfunc f x).mousey = x.mousey) →
        (handleEvent u e w).1.self.mousex = w.self.mousex ∧
        (handleEvent u e w).1.self.mousey = w.self.mousey)) ∧
    (∀ (m n M : Nat) (e f K : Int), 0 < m → 0 < n →
      M < 2 ^ 53 → -1074 ≤ K → K ≤ 971 → (2 ^ 52 ≤ M ∨ K = -1074) →
      ((m : ℚ) * (2 : ℚ) ^ e) / ((n : ℚ) * (2 : ℚ) ^ f) = M * (2 : ℚ) ^ K →
      JsNum.div (JsNum.finite false m e) (JsNum.finite false n f) =
        JsNum.finite false M K) := by
  refine ⟨rfl, rfl, rfl, ?_, fun m n M e f K hm hn hM hK1 hK2 hMK hq =>
    JsNum.div_exact m n M e f K hm hn hM hK1 hK2 hMK hq⟩
  intro w e
  refine ⟨?_, ?_, ?_⟩
  · intro ht
    simp only [List.mem_cons, List.mem_singleton, List.not_mem_nil, or_false] at ht
    rcases ht with ht | ht | ht | ht
    · rw [handleEvent_click u e w ht]; exact ⟨rfl, rfl, rfl, rfl⟩
    · rw [handleEvent_mousedown u e w ht]; exact ⟨rfl, rfl, rfl, rfl⟩
    · rw [handleEvent_mouseup u e w ht]; exact ⟨rfl, rfl, rfl, rfl⟩
    · rw [handleEvent_mousemove u e w ht]; exact ⟨rfl, rfl, rfl, rfl⟩
  · intro ht
    simp [handleEvent_keydown u e w ht, emit]
  · intro ht hu
    rw [handleEvent_load u e w ht]
    rcases imageLoadTest_cases u
      { w with self := { w.self with images := markLoaded e.target w.self.images } }
      with h | h | ⟨f, _, h⟩
    · rw [h]; exact ⟨rfl, rfl⟩
    · rw [h]; exact ⟨rfl, rfl⟩
    · rw [h]
      exact ⟨(hu f _).1, (hu f _).2⟩

/-- The two scenarios of C7, in which every quotient is a binary64 value and
the result is exact: logical 320 by 240 over 640 by 480 maps a click at
`(100, 100)` to `(50, 50)`, and logical 640 by 480 over 640 by 480 maps a
mousemove at `(320, 240)` to `(320, 240)`. -/
theorem pointer_scaling_witness :
    ((handleEvent idle ⟨"click", 0, 100, 100⟩
        (initWorld (newFields 640 480 320 240))).1.self.mousex = 50 ∧
      (handleEvent idle ⟨"click", 0, 100, 100⟩
        (initWorld (newFields 640 480 320 240))).1.self.mousey = 50) ∧
    ((handleEvent idle ⟨"mousemove", 0, 320, 240⟩ demo).1.self.mousex = 320 ∧
      (handleEvent idle ⟨"mousemove", 0, 320, 240⟩ demo).1.self.mousey = 240) := by
  have a := ((pointer_scaling idle 640 480 320 240).2.2.2.1
    (initWorld (newFields 640 480 320 240)) ⟨"click", 0, 100, 100⟩).1 (by simp)
  have b := ((pointer_scaling idle 640 480 640 480).2.2.2.1
    demo ⟨"mousemove", 0, 320, 240⟩).1 (by simp)
  refine ⟨⟨?_, ?_⟩, ?_, ?_⟩
  · rw [a.1]; decide
  · rw [a.2.1]; decide
  · rw [b.1]; decide
  · rw [b.2.1]; decide

/-- C6: on a running instance, after a click (a mousemove) and with no event in
between, the frame function of the first tick is handed `mouseclicked`
(`mousemoved`) true and the frame function of every later tick is handed it
false; and `handleEvent` never turns either flag from true to false (for a
load event, as long as the continuation it may call does not write them). -/
theorem edge_flags (u : User) (w : World) (e : Event) (g : Nat) (now : ℚ) (nows : List ℚ)
    (hs : w.self.stopped = some false) (hg : w.self.gamefunc = some g) :
    (e.type = "click" →
      ∃ first rest,
        framesSeen (ticks u (now :: nows) (handleEvent u e w).1).trace =
          framesSeen w.trace ++ first :: rest ∧
        first.mouseclicked = true ∧ ∀ s ∈ rest, s.mouseclicked = false) ∧
    (e.type = "mousemove" →
      ∃ first rest,
        framesSeen (ticks u (now :: nows) (handleEvent u e w).1).trace =
          framesSeen w.trace ++ first :: rest ∧
        first.mousemoved = some true ∧ ∀ s ∈ rest, s.mousemoved = some false) ∧
    (∀ (e1 : Event) (w1 : World),
      (∀ f x, (u.endfunc f x).mouseclicked = x.mouseclicked ∧
        (u.endfunc f x).mousemoved = x.mousemoved) →
      (w1.self.mouseclicked = true → (handleEvent u e1 w1).1.self.mouseclicked = true) ∧
      (w1.self.mousemoved = some true →
        (handleEvent u e1 w1).1.self.mousemoved = some true)) := by
  refine ⟨?_, ?_, ?_⟩
  · intro ht
    obtain ⟨rest, hr, hall⟩ := ticks_first u now nows g (handleEvent u e w).1
      (by rw [handleEvent_click u e w ht]; exact hs) (by rw [handleEvent_click u e w ht]; exact hg)
    refine ⟨(handleEvent u e w).1.self, rest, ?_, ?_, fun s h => (hall s h).1⟩
    · rw [hr, handleEvent_click u e w ht]
    · rw [handleEvent_click u e w ht]
  · intro ht
    obtain ⟨rest, hr, hall⟩ := ticks_first u now nows g (handleEvent u e w).1
      (by rw [handleEvent_mousemove u e w ht]; exact hs)
      (by rw [handleEvent_mousemove u e w ht]; exact hg)
    refine ⟨(handleEvent u e w).1.self, rest, ?_, ?_, fun s h => (hall s h).2⟩
    · rw [hr, handleEvent_mousemove u e w ht]
    · rw [handleEvent_mousemove u e w ht]
  · intro e1 w1 hu
    by_cases h1 : e1.type = "click"
    · rw [handleEvent_click u e1 w1 h1]; exact ⟨fun _ => rfl, fun h => h⟩
    by_cases h2 : e1.type = "keydown"
    · rw [handleEvent_keydown u e1 w1 h2]; exact ⟨fun h => h, fun h => h⟩
    by_cases h3 : e1.type = "mousedown"
    · rw [handleEvent_mousedown u e1 w1 h3]; exact ⟨fun h => h, fun h => h⟩
    by_cases h4 : e1.type = "mouseup"
    · rw [handleEvent_mouseup u e1 w1 h4]; exact ⟨fun h => h, fun h => h⟩
    by_cases h5 : e1.type = "mousemove"
    · rw [handleEvent_mousemove u e1 w1 h5]; exact ⟨fun h => h, fun _ => rfl⟩
    by_cases h6 : e1.type = "load"
    · rw [handleEvent_load u e1 w1 h6]
      rcases imageLoadTest_cases u
        { w1 with self := { w1.self with images := markLoaded e1.target w1.self.images } }
        with h | h | ⟨f, _, h⟩
      · rw [h]; exact ⟨fun h => h, fun h => h⟩
      · rw [h]; exact ⟨fun h => h, fun h => h⟩
      · rw [h]
        exact ⟨fun h => ((hu f _).1).trans h, fun h => ((hu f _).2).trans h⟩
    · rw [handleEvent_other u e1 w1 (by simp [h1, h2, h3, h4, h5, h6])]
      exact ⟨fun h => h, fun h => h⟩

/-- Witness of C6: a click on a started instance, then three ticks. -/
theorem edge_flags_witness :
    (startAnimation 1 none 0 demo).self.stopped = some false ∧
    ∃ first rest,
      framesSeen (ticks idle [30, 60, 90]
        (handleEvent idle ⟨"click", 0, 5, 5⟩ (startAnimation 1 none 0 demo)).1).trace =
        framesSeen (startAnimation 1 none 0 demo).trace ++ first :: rest ∧
      first.mouseclicked = true ∧ ∀ s ∈ rest, s.mouseclicked = false :=
  ⟨rfl, (edge_flags idle (startAnimation 1 none 0 demo) ⟨"click", 0, 5, 5⟩ 1 30 [60, 90]
    rfl rfl).1 rfl⟩

/-! ## Image load gate -/

theorem endfuncCalls_append (a b : List Effect) :
    endfuncCalls (a ++ b) = endfuncCalls a ++ endfuncCalls b := by
  simp [endfuncCalls, List.filterMap_append]

theorem and_truthy (a b : JsVal) : (JsVal.and a b).truthy = (a.truthy && b.truthy) := by
  unfold JsVal.and
  cases h : a.truthy <;> simp [h]

theorem foldl_and_truthy (l : List (String × Lookup)) : ∀ acc : JsVal,
    (l.foldl (fun acc kv => JsVal.and acc kv.2.loaded) acc).truthy =
      (acc.truthy && l.all (fun kv => kv.2.loaded.truthy)) := by
  induction l with
  | nil => intro acc; simp
  | cons kv rest ih => intro acc; simp [List.foldl, ih, and_truthy, Bool.and_assoc]

theorem forInOwn_perm (own : List (String × ImageEntry)) : (forInOwn own).Perm own := by
  unfold forInOwn
  exact (List.Perm.append_right _ (List.perm_insertionSort _ _)).trans
    (List.filter_append_perm _ own)

theorem mem_forIn_of_mem (own : List (String × ImageEntry)) (proto : Option ImageEntry)
    (kv : String × ImageEntry) (h : kv ∈ own) :
    (kv.1, Lookup.entry kv.2) ∈ forIn own proto := by
  unfold forIn
  apply List.mem_append_left
  exact List.mem_map.mpr ⟨kv, (forInOwn_perm own).mem_iff.mpr h, rfl⟩

theorem markLoaded_of_not_mem (target : Handle) (imgs : List (String × ImageEntry))
    (h : target ∉ imgs.map (fun kv => kv.2.image)) : markLoaded target imgs = imgs := by
  induction imgs with
  | nil => rfl
  | cons kv rest ih =>
    simp only [List.map_cons, List.mem_cons, not_or] at h
    simp only [markLoaded, List.map_cons] at ih ⊢
    rw [ih h.2, if_neg h.1]

theorem markLoaded_of_all_loaded (target : Handle) (imgs : List (String × ImageEntry))
    (h : ∀ kv ∈ imgs, kv.2.loaded = true) : markLoaded target imgs = imgs := by
  induction imgs with
  | nil => rfl
  | cons kv rest ih =>
    simp only [markLoaded, List.map_cons] at ih ⊢
    rw [ih (fun x hx => h x (List.mem_cons_of_mem _ hx))]
    have hkv := h kv (List.mem_cons_self _ _)
    by_cases ht : target = kv.2.image
    · rw [if_pos ht]
      obtain ⟨k, ⟨l, i, d⟩⟩ := kv
      simp only at hkv
      simp [hkv]
    · rw [if_neg ht]

theorem imageLoadTest_pending (u : User) (w : World)
    (h : ∃ kv ∈ w.self.images, kv.2.loaded = false) :
    imageLoadTest u w = (w, Completion.normal) := by
  obtain ⟨kv, hkv, hl⟩ := h
  have hfalse : (forIn w.self.images w.self.imagesProto).all
      (fun kv => kv.2.loaded.truthy) = false := by
    rw [List.all_eq_false]
    exact ⟨(kv.1, Lookup.entry kv.2), mem_forIn_of_mem _ _ kv hkv,
      by simp [Lookup.loaded, JsVal.truthy, hl]⟩
  simp [imageLoadTest, foldl_and_truthy, hfalse]

theorem imageLoadTest_complete (u : User) (w : World) (cb : Nat)
    (hcb : w.self.imagesloaded = some cb) (hproto : w.self.imagesProto = none)
    (h : ∀ kv ∈ w.self.images, kv.2.loaded = true) :
    imageLoadTest u w =
      ({ w with trace := w.trace ++ [Effect.callEndfunc cb], self := u.endfunc cb w.self },
        Completion.normal) := by
  have htrue : (forIn w.self.images w.self.imagesProto).all
      (fun kv => kv.2.loaded.truthy) = true := by
    rw [List.all_eq_true]
    intro x hx
    simp only [forIn, hproto, inheritedFields, List.filter_nil, List.append_nil,
      List.mem_map] at hx
    obtain ⟨kv, hkv, rfl⟩ := hx
    have hmem : kv ∈ w.self.images := (forInOwn_perm _).mem_iff.mp hkv
    simp [Lookup.loaded, JsVal.truthy, h kv hmem]
  unfold imageLoadTest
  simp only [foldl_and_truthy, htrue]
  simp [hcb, JsVal.truthy]

/-- Counterexample to C2: the batch `["a.png"]` with continuation `7` is
complete after one notification for its handle `0`; a second notification for
the same handle invokes the continuation a second time. -/
theorem duplicate_load_counterexample :
    batchHandles (loadImages ["a.png"] 7 demo) = [0] ∧
    endfuncCalls (deliver idle [0] (loadImages ["a.png"] 7 demo)).trace = [7] ∧
    endfuncCalls (deliver idle [0, 0] (loadImages ["a.png"] 7 demo)).trace = [7, 7] := by
  decide

/-- C2, amended: the gate has no one-shot latch. Every load notification that
arrives while all entries of the current batch are loaded, in particular a
duplicate for a handle of a batch whose continuation has already been invoked,
leaves the flags as they are and invokes the continuation exactly once more.
The batch is one without an image named `__proto__`, whose `timg` would be the
prototype of the dictionary and not an entry of it. -/
theorem load_after_completion (u : User) (w : World) (e : Event) (cb : Nat)
    (ht : e.type = "load") (hcb : w.self.imagesloaded = some cb)
    (hproto : w.self.imagesProto = none)
    (hall : ∀ kv ∈ w.self.images, kv.2.loaded = true) :
    handleEvent u e w =
      ({ w with trace := w.trace ++ [Effect.callEndfunc cb], self := u.endfunc cb w.self },
        Completion.normal) ∧
    endfuncCalls (handleEvent u e w).1.trace = endfuncCalls w.trace ++ [cb] := by
  have hm : markLoaded e.target w.self.images = w.self.images :=
    markLoaded_of_all_loaded e.target w.self.images hall
  have h : handleEvent u e w =
      ({ w with trace := w.trace ++ [Effect.callEndfunc cb], self := u.endfunc cb w.self },
        Completion.normal) := by
    rw [handleEvent_load u e w ht, hm]
    exact imageLoadTest_complete u w cb hcb hproto hall
  refine ⟨h, ?_⟩
  rw [h]
  simp [endfuncCalls_append, endfuncCalls]

/-- Witness of C2, amended: the duplicate notification of the counterexample. -/
theorem load_after_completion_witness :
    endfuncCalls (handleEvent idle ⟨"load", 0, 0, 0⟩
      (deliver idle [0] (loadImages ["a.png"] 7 demo))).1.trace =
    endfuncCalls (deliver idle [0] (loadImages ["a.png"] 7 demo)).trace ++ [7] :=
  (load_after_completion idle (deliver idle [0] (loadImages ["a.png"] 7 demo))
    ⟨"load", 0, 0, 0⟩ 7 rfl (by decide) (by decide) (by decide)).2

/-- Counterexample to C3: `loadImages(["a.png"], 1)` is superseded by
`loadImages(["b.png"], 2)`; the new batch completes, and the stale notification
for the handle `0` of the abandoned batch, which is not a handle of the current
batch, invokes the continuation `2` again. With an empty current batch the
stale notification invokes the continuation as well. -/
theorem stale_load_counterexample :
    (0 ∉ batchHandles (deliver idle [1] (loadImages ["b.png"] 2 (loadImages ["a.png"] 1 demo))) ∧
      endfuncCalls (deliver idle [1]
        (loadImages ["b.png"] 2 (loadImages ["a.png"] 1 demo))).trace = [2] ∧
      endfuncCalls (deliver idle [1, 0]
        (loadImages ["b.png"] 2 (loadImages ["a.png"] 1 demo))).trace = [2, 2]) ∧
    (batchHandles (loadImages [] 2 (loadImages ["a.png"] 1 demo)) = [] ∧
      endfuncCalls (deliver idle [0]
        (loadImages [] 2 (loadImages ["a.png"] 1 demo))).trace = [2]) := by
  decide

/-- C3, amended: while at least one entry of the current batch is not yet
loaded, a load notification whose target is not the handle of any entry makes
`handleEvent` return normally with the whole state, every loaded flag included,
unchanged and the continuation not invoked. -/
theorem stale_load_ignored (u : User) (w : World) (e : Event)
    (ht : e.type = "load") (hstale : e.target ∉ batchHandles w)
    (hpending : ∃ kv ∈ w.self.images, kv.2.loaded = false) :
    handleEvent u e w = (w, Completion.normal) := by
  rw [handleEvent_load u e w ht, markLoaded_of_not_mem e.target w.self.images hstale]
  exact imageLoadTest_pending u w hpending

/-- Witness of C3, amended: a stale notification while `b.png` is still loading. -/
theorem stale_load_ignored_witness :
    handleEvent idle ⟨"load", 0, 0, 0⟩ (loadImages ["b.png"] 2 (loadImages ["a.png"] 1 demo)) =
      (loadImages ["b.png"] 2 (loadImages ["a.png"] 1 demo), Completion.normal) :=
  stale_load_ignored idle (loadImages ["b.png"] 2 (loadImages ["a.png"] 1 demo))
    ⟨"load", 0, 0, 0⟩ rfl (by decide)
    ⟨("b.png", ⟨false, 1, none⟩), by decide, rfl⟩

/-! ## Operations that take an image name -/

theorem objGet_of_not_key {α : Type} (obj : List (String × α)) (key : String)
    (h : ∀ kv ∈ obj, kv.1 ≠ key) : objGet obj key = none := by
  unfold objGet
  rw [Option.map_eq_none', List.find?_eq_none]
  intro kv hkv
  simpa using h kv hkv

theorem propGet_undefined (own : List (String × ImageEntry)) (proto : Option ImageEntry)
    (key : String) (hkey : ∀ kv ∈ own, kv.1 ≠ key) (hb : key ∉ objectPrototypeKeys)
    (hinh : ∀ kv ∈ inheritedFields proto, kv.1 ≠ key) :
    propGet own proto key = Lookup.undefined := by
  have hp : key ≠ "__proto__" := by
    intro h
    apply hb
    rw [h]
    decide
  simp [propGet, objGet_of_not_key _ _ hkey, objGet_of_not_key _ _ hinh, hp, hb]

/-- Counterexample to C8: with the batch `["a.png"]`, the name `missing.png` is
neither a key of the batch nor a name the dictionary inherits; `drawImage` and
`drawImageFull` called with it raise a `TypeError` instead of returning
normally. -/
theorem draw_missing_counterexample :
    (∀ kv ∈ (loadImages ["a.png"] 7 demo).self.images, kv.1 ≠ "missing.png") ∧
    "missing.png" ∉ objectPrototypeKeys ∧
    (drawImage demoHost "missing.png" 0 0 (loadImages ["a.png"] 7 demo)).2 =
      Completion.threw
        (JsError.typeError "Cannot read properties of undefined (reading image)") ∧
    (drawImageFull "missing.png" 0 0 0 0 32 32 0 0 (loadImages ["a.png"] 7 demo)).2 =
      Completion.threw
        (JsError.typeError "Cannot read properties of undefined (reading image)") := by
  decide

/-- C8, amended: for an image name under which `this.images` holds nothing,
that is a name which is not a key of the current batch and which the
dictionary does not inherit either (from `Object.prototype`, as `toString`, or
from a `timg` installed as prototype by an image named `__proto__`),
`drawImage` and `drawImageFull` issue no drawing call and leave the instance
unchanged, but they do not return normally: the read of the missing entry
raises a `TypeError`, which reaches the caller. -/
theorem draw_missing_raises (host : Host) (w : World) (imgname : String)
    (h : ∀ kv ∈ w.self.images, kv.1 ≠ imgname) (hb : imgname ∉ objectPrototypeKeys)
    (hinh : ∀ kv ∈ inheritedFields w.self.imagesProto, kv.1 ≠ imgname) :
    (∀ px py, drawImage host imgname px py w =
      (w, Completion.threw
        (JsError.typeError "Cannot read properties of undefined (reading image)"))) ∧
    (∀ px py sx sy sw sh dw dh, drawImageFull imgname px py sx sy sw sh dw dh w =
      (w, Completion.threw
        (JsError.typeError "Cannot read properties of undefined (reading image)"))) := by
  have hp := propGet_undefined w.self.images w.self.imagesProto imgname h hb hinh
  constructor
  · intro px py
    simp [drawImage, hp]
  · intro px py sx sy sw sh dw dh
    simp [drawImageFull, hp]

/-- Witness of C8, amended: `drawImage` of a missing name on the fresh instance. -/
theorem draw_missing_raises_witness :
    drawImage demoHost "missing.png" 3 4 demo =
      (demo, Completion.threw
        (JsError.typeError "Cannot read properties of undefined (reading image)")) :=
  (draw_missing_raises demoHost demo "missing.png"
    (by decide) (by decide) (by decide)).1 3 4

/-- A name inherited from `Object.prototype` behaves otherwise: `toString` reads
as a function, whose `image` is undefined; `drawImage` raises at the read of
its width, while `drawImageFull` hands undefined to the host drawing call. -/
theorem draw_inherited_name :
    propGet (loadImages ["a.png"] 7 demo).self.images
      (loadImages ["a.png"] 7 demo).self.imagesProto "toString" = Lookup.builtin "toString" ∧
    drawImage demoHost "toString" 0 0 (loadImages ["a.png"] 7 demo) =
      (loadImages ["a.png"] 7 demo, Completion.threw
        (JsError.typeError "Cannot read properties of undefined (reading width)")) ∧
    drawImageFull "toString" 0 0 0 0 32 32 0 0 (loadImages ["a.png"] 7 demo) =
      (emit (Effect.offDrawImage none 0 0 32 32 0 0 32 32) (loadImages ["a.png"] 7 demo),
        Completion.threw (JsError.typeError "drawImage: the provided value is not an image")) := by
  have h : propGet (loadImages ["a.png"] 7 demo).self.images
      (loadImages ["a.png"] 7 demo).self.imagesProto "toString" = Lookup.builtin "toString" := by
    decide
  refine ⟨h, ?_, ?_⟩
  · simp [drawImage, h]
  · simp [drawImageFull, h]

/-- The test `!this.images[pimage] === undefined` of `imageSetUpPixels` is false
whether or not the entry exists, so the branch that reports a missing image is
never taken. -/
theorem imageSetUpPixels_guard_never_fires (present : Bool) :
    JsVal.strictEq (JsVal.bool (!present)) JsVal.undefined = false := by
  cases present <;> rfl

/-- For a name under which neither `images` nor `imgcanvas` holds anything,
`imageSetUpPixels` creates a canvas and then raises a `TypeError` at the read of
the missing entry; the message for a missing image is not logged. -/
theorem imageSetUpPixels_missing (host : Host) (w : World) (pimage : String)
    (h : ∀ kv ∈ w.self.images, kv.1 ≠ pimage) (hb : pimage ∉ objectPrototypeKeys)
    (hinh : ∀ kv ∈ inheritedFields w.self.imagesProto, kv.1 ≠ pimage)
    (hc : ∀ kv ∈ w.self.imgcanvas, kv.1 ≠ pimage) :
    imageSetUpPixels host pimage w =
      ({ w with nextId := w.nextId + 1, trace := w.trace ++ [Effect.createCanvas w.nextId] },
        Completion.threw
          (JsError.typeError "Cannot read properties of undefined (reading image)")) := by
  have hp := propGet_undefined w.self.images w.self.imagesProto pimage h hb hinh
  simp [imageSetUpPixels, hp, objGet_of_not_key _ _ hc, hb, JsVal.strictEq, Lookup.truthy]

/-- The field `imgcanvas` is never written, so a second `imageSetUpPixels` of a
loaded image is not recognised as a repetition: it creates another canvas and
logs no warning. -/
theorem imageSetUpPixels_twice :
    (imageSetUpPixels demoHost "a.png" demoPixels).1.trace =
      demoPixels.trace ++ [Effect.createCanvas 2, Effect.canvasDrawImage 2 0,
        Effect.getImageData 2 1 1] ∧
    (imageSetUpPixels demoHost "a.png" demoPixels).1.self.imgcanvas = [] := by
  have h : propGet demoPixels.self.images demoPixels.self.imagesProto "a.png" =
      Lookup.entry ⟨true, 0, some ⟨1, 1, [10, 20, 30, 255]⟩⟩ := by decide
  have hc : demoPixels.self.imgcanvas = [] := by decide
  have hn : demoPixels.nextId = 2 := by decide
  have hk : "a.png" ∉ objectPrototypeKeys := by decide
  constructor
  · simp [imageSetUpPixels, h, hc, hn, hk, JsVal.strictEq, Lookup.truthy, emit, objGet,
      demoHost]
  · simp [imageSetUpPixels, h, hc, hn, hk, JsVal.strictEq, Lookup.truthy, emit, objGet,
      demoHost]

/-! ## Pixel reads -/

/-- C9, the code at a failing input: the image `a.png` is loaded, one pixel
wide and high, and `imageSetUpPixels` has captured its bytes 10, 20, 30, 255 in
the `data` field of an `ImageData`; `getPixel("a.png", 0, 0)` indexes the
`ImageData` object itself and returns four times undefined, not the four bytes
at offsets 0 to 3. -/
theorem getPixel_reads_object_not_data :
    objGet demoPixels.self.images "a.png" =
      some ⟨true, 0, some ⟨1, 1, [10, 20, 30, 255]⟩⟩ ∧
    getPixel demoHost "a.png" 0 0 demoPixels =
      Except.ok [JsVal.undefined, JsVal.undefined, JsVal.undefined, JsVal.undefined] ∧
    pixelBytes ⟨1, 1, [10, 20, 30, 255]⟩ 0 0 =
      [JsVal.num 10, JsVal.num 20, JsVal.num 30, JsVal.num 255] := by
  have h : objGet demoPixels.self.images "a.png" =
      some ⟨true, 0, some ⟨1, 1, [10, 20, 30, 255]⟩⟩ := by decide
  refine ⟨h, ?_, ?_⟩
  · simp [getPixel, propGet, h, ImageData.index, List.range, List.range.loop]
  · simp [pixelBytes, List.range, List.range.loop]

/-- Whenever `getPixel` returns, it returns four times undefined. -/
theorem getPixel_undefined (host : Host) (w : World) (pimage : String) (px py : ℚ)
    (v : List JsVal) (h : getPixel host pimage px py w = Except.ok v) :
    v = [JsVal.undefined, JsVal.undefined, JsVal.undefined, JsVal.undefined] := by
  unfold getPixel at h
  split at h
  · cases h
  · split at h
    · cases h
    · cases h
      simp [ImageData.index, List.range, List.range.loop]
  · cases h

/-! ## Armed timers -/

theorem timerInv_start (g : Nat) (tick : Option ℚ) (now : ℚ) (w : World)
    (h : w.timers.isEmpty = true) : timerInv (startAnimation g tick now w) := by
  have ht : w.timers = [] := List.isEmpty_iff.mp h
  simp [timerInv, startAnimation, setTimeout, ht]

theorem timerInv_stop (w : World) (h : timerInv w) : timerInv (stopEidolon w) := by
  obtain ⟨h1, _, h3⟩ := h
  exact ⟨h1, by simp [stopEidolon], h3⟩

theorem timerInv_fire (u : User)
    (hu : ∀ f x s, (u.gamefunc f x s).gamefunc = s.gamefunc)
    (t : Handle) (now : ℚ) (w : World) (h : timerInv w) : timerInv (fire u t now w).1 := by
  by_cases ht : t ∈ w.timers
  · obtain ⟨h1, _, h3⟩ := h
    have hne : w.timers ≠ [] := List.ne_nil_of_mem ht
    obtain ⟨g, hg⟩ := h3 hne
    have hts : w.timers = [t] := by
      cases hw : w.timers with
      | nil => exact absurd hw hne
      | cons a rest =>
        rw [hw] at h1 ht
        have hr : rest = [] := by
          cases rest with
          | nil => rfl
          | cons b r => simp at h1
        subst hr
        simp at ht
        rw [ht]
    have he : w.timers.erase t = [] := by rw [hts]; simp
    simp only [fire, ht, if_true, eTick, he]
    by_cases hs : w.self.stopped = some true
    · simp [eTickFull, hs, timerInv]
    · simp [eTickFull, hs, hg, timerInv, finalizeGraphics, emit, setTimeout, hu]
  · simpa [fire, ht] using h

theorem timerInv_run (u : User)
    (hu : ∀ f x s, (u.gamefunc f x s).gamefunc = s.gamefunc) (ops : List Op) :
    ∀ w : World, timerInv w → startsWhenIdle u ops w = true → timerInv (run u ops w) := by
  induction ops with
  | nil => intro w h _; exact h
  | cons op ops ih =>
    intro w h hidle
    simp only [startsWhenIdle, Bool.and_eq_true] at hidle
    have hstep : timerInv (step u w op) := by
      cases op with
      | start g tick now => exact timerInv_start g tick now w hidle.1
      | stop => exact timerInv_stop w h
      | fire t now => exact timerInv_fire u hu t now w h
    exact ih (step u w op) hstep hidle.2

/-- Counterexample to C10: after `startAnimation` and `stopEidolon` on a fresh
instance, `stopped` is true and one timer is still armed. -/
theorem armed_after_stop_counterexample :
    (run idle [Op.start 1 none 0, Op.stop] demo).self.stopped = some true ∧
    (run idle [Op.start 1 none 0, Op.stop] demo).timers.length = 1 :=
  ⟨rfl, rfl⟩

/-- C10, amended: in every state reached from construction by calls of
`startAnimation`, `stopEidolon` and timer fires in which `startAnimation` is
only called while no timer is armed (the frame function not reassigning
`gamefunc`), at most one timer is armed; exactly one is armed while `stopped`
is false, and zero or one while `stopped` is true. -/
theorem armed_timers_bounded (u : User)
    (hu : ∀ f x s, (u.gamefunc f x s).gamefunc = s.gamefunc)
    (cw ch gw gh : JsNum) (ops : List Op)
    (hidle : startsWhenIdle u ops (initWorld (newFields cw ch gw gh)) = true) :
    (run u ops (initWorld (newFields cw ch gw gh))).timers.length ≤ 1 ∧
    ((run u ops (initWorld (newFields cw ch gw gh))).self.stopped = some false →
      (run u ops (initWorld (newFields cw ch gw gh))).timers.length = 1) ∧
    ((run u ops (initWorld (newFields cw ch gw gh))).self.stopped = some true →
      (run u ops (initWorld (newFields cw ch gw gh))).timers.length = 0 ∨
      (run u ops (initWorld (newFields cw ch gw gh))).timers.length = 1) := by
  have h0 : timerInv (initWorld (newFields cw ch gw gh)) := by
    simp [timerInv, initWorld, newFields]
  obtain ⟨h1, h2, _⟩ := timerInv_run u hu ops _ h0 hidle
  refine ⟨h1, h2, fun _ => ?_⟩
  omega

/-- Witness of C10, amended: start, a tick, stop, the fire of the timer in
flight, and a second start. -/
theorem armed_timers_bounded_witness :
    (run idle [Op.start 1 none 0, Op.fire 0 30, Op.stop, Op.fire 1 60, Op.start 1 none 90]
      (initWorld (newFields 640 480 640 480))).timers.length ≤ 1 :=
  (armed_timers_bounded idle (fun _ _ _ => rfl) 640 480 640 480
    [Op.start 1 none 0, Op.fire 0 30, Op.stop, Op.fire 1 60, Op.start 1 none 90] rfl).1

/-! ## Completion of a batch -/

theorem objSet_of_not_key {α : Type} (obj : List (String × α)) (key : String) (v : α)
    (h : ∀ kv ∈ obj, kv.1 ≠ key) : objSet obj key v = obj ++ [(key, v)] := by
  induction obj with
  | nil => rfl
  | cons kv rest ih =>
    obtain ⟨k, x⟩ := kv
    have hk : k ≠ key := h (k, x) (List.mem_cons_self _ _)
    simp only [objSet, if_neg hk, List.cons_append]
    rw [ih (fun y hy => h y (List.mem_cons_of_mem _ hy))]

theorem foldl_loadOne (names : List String) : ∀ w : World, names.Nodup →
    "__proto__" ∉ names →
    (∀ n ∈ names, ∀ kv ∈ w.self.images, kv.1 ≠ n) →
    batchHandles (names.foldl loadOne w) =
      batchHandles w ++ List.range' w.nextId names.length ∧
    (∀ kv ∈ (names.foldl loadOne w).self.images, kv ∈ w.self.images ∨ kv.2.loaded = false) ∧
    (names.foldl loadOne w).self.imagesloaded = w.self.imagesloaded ∧
    (names.foldl loadOne w).self.imagesProto = w.self.imagesProto ∧
    endfuncCalls (names.foldl loadOne w).trace = endfuncCalls w.trace := by
  induction names with
  | nil => intro w _ _ _; exact ⟨by simp, fun kv h => Or.inl h, rfl, rfl, rfl⟩
  | cons n rest ih =>
    intro w hd hp hk
    have hn : n ≠ "__proto__" := fun h => hp (h ▸ List.mem_cons_self _ _)
    have hself : (loadOne w n).self =
        { w.self with images := objSet w.self.images n ⟨false, w.nextId, none⟩ } := by
      simp [loadOne, imagesSet, hn]
    have himg : (loadOne w n).self.images = w.self.images ++ [(n, ⟨false, w.nextId, none⟩)] := by
      rw [hself]
      exact objSet_of_not_key _ _ _ (hk n (List.mem_cons_self _ _))
    have hnext : (loadOne w n).nextId = w.nextId + 1 := rfl
    have hcb : (loadOne w n).self.imagesloaded = w.self.imagesloaded := by rw [hself]
    have hpr : (loadOne w n).self.imagesProto = w.self.imagesProto := by rw [hself]
    have htr : endfuncCalls (loadOne w n).trace = endfuncCalls w.trace := by
      simp [loadOne, endfuncCalls_append, endfuncCalls]
    have hd2 := List.nodup_cons.mp hd
    obtain ⟨h1, h2, h3, h5, h4⟩ := ih (loadOne w n) hd2.2
      (fun h => hp (List.mem_cons_of_mem _ h)) (by
      intro m hm kv hkv
      rw [himg] at hkv
      rcases List.mem_append.mp hkv with hkv | hkv
      · exact hk m (List.mem_cons_of_mem _ hm) kv hkv
      · simp only [List.mem_singleton] at hkv
        rw [hkv]
        intro hnm
        have hnm2 : n = m := hnm
        exact hd2.1 (hnm2 ▸ hm))
    refine ⟨?_, ?_, ?_, ?_, ?_⟩
    · rw [List.foldl_cons, h1]
      simp [batchHandles, himg, hnext, List.range'_succ]
    · intro kv hkv
      rw [List.foldl_cons] at hkv
      rcases h2 kv hkv with h | h
      · rw [himg] at h
        rcases List.mem_append.mp h with h | h
        · exact Or.inl h
        · simp only [List.mem_singleton] at h
          right; rw [h]
      · exact Or.inr h
    · rw [List.foldl_cons, h3, hcb]
    · rw [List.foldl_cons, h5, hpr]
    · rw [List.foldl_cons, h4, htr]

theorem loadImages_batch (names : List String) (cb : Nat) (w : World) (hd : names.Nodup)
    (hp : "__proto__" ∉ names) :
    batchHandles (loadImages names cb w) = List.range' w.nextId names.length ∧
    (∀ kv ∈ (loadImages names cb w).self.images, kv.2.loaded = false) ∧
    (loadImages names cb w).self.imagesloaded = some cb ∧
    (loadImages names cb w).self.imagesProto = none ∧
    endfuncCalls (loadImages names cb w).trace = endfuncCalls w.trace := by
  obtain ⟨h1, h2, h3, h5, h4⟩ := foldl_loadOne names
    { w with self := { w.self with
        images := [], imagesProto := none, imagesloaded := some cb } } hd hp
    (by intro n _ kv hkv; simp at hkv)
  refine ⟨?_, ?_, h3, h5, h4⟩
  · rw [loadImages, h1]; simp [batchHandles]
  · intro kv hkv
    rcases h2 kv hkv with h | h
    · simp at h
    · exact h

theorem handleEvent_load_complete (u : User) (w : World) (e : Event) (cb : Nat)
    (ht : e.type = "load") (hcb : w.self.imagesloaded = some cb)
    (hproto : w.self.imagesProto = none)
    (hall : ∀ kv ∈ markLoaded e.target w.self.images, kv.2.loaded = true) :
    endfuncCalls (handleEvent u e w).1.trace = endfuncCalls w.trace ++ [cb] := by
  rw [handleEvent_load u e w ht]
  rw [imageLoadTest_complete u
    { w with self := { w.self with images := markLoaded e.target w.self.images } } cb hcb
    hproto hall]
  simp [endfuncCalls_append, endfuncCalls]

theorem deliver_append (u : User) (a b : List Handle) : ∀ w : World,
    deliver u (a ++ b) w = deliver u b (deliver u a w) := by
  induction a with
  | nil => intro w; rfl
  | cons h hs ih => intro w; simp only [List.cons_append, deliver]; exact ih _

theorem mem_markLoaded_of_ne (h : Handle) (imgs : List (String × ImageEntry))
    (kv : String × ImageEntry) (hkv : kv ∈ imgs) (hne : h ≠ kv.2.image) :
    kv ∈ markLoaded h imgs := by
  simp only [markLoaded, List.mem_map]
  exact ⟨kv, hkv, by rw [if_neg hne]⟩

theorem deliver_pending (u : User) (ds : List Handle) : ∀ w : World,
    (∃ kv ∈ w.self.images, kv.2.loaded = false ∧ kv.2.image ∉ ds) →
    deliver u ds w =
      { w with self := { w.self with
          images := ds.foldl (fun imgs h => markLoaded h imgs) w.self.images } } := by
  induction ds with
  | nil => intro w _; rfl
  | cons h hs ih =>
    intro w hw
    obtain ⟨kv, hkv, hl, hn⟩ := hw
    simp only [List.mem_cons, not_or] at hn
    have hmem : kv ∈ markLoaded h w.self.images :=
      mem_markLoaded_of_ne h _ kv hkv (fun e => hn.1 e.symm)
    have hstep : handleEvent u ⟨"load", h, 0, 0⟩ w =
        ({ w with self := { w.self with images := markLoaded h w.self.images } },
          Completion.normal) := by
      rw [handleEvent_load u _ w rfl]
      exact imageLoadTest_pending u _ ⟨kv, hmem, hl⟩
    rw [deliver, hstep]
    rw [ih _ ⟨kv, hmem, hl, hn.2⟩]
    rfl

theorem foldl_markLoaded_all (ds : List Handle) : ∀ imgs : List (String × ImageEntry),
    (∀ kv ∈ imgs, kv.2.loaded = true ∨ kv.2.image ∈ ds) →
    ∀ kv ∈ ds.foldl (fun imgs h => markLoaded h imgs) imgs, kv.2.loaded = true := by
  induction ds with
  | nil =>
    intro imgs h kv hkv
    rcases h kv hkv with h | h
    · exact h
    · simp at h
  | cons d ds ih =>
    intro imgs h kv hkv
    rw [List.foldl_cons] at hkv
    refine ih (markLoaded d imgs) ?_ kv hkv
    intro x hx
    simp only [markLoaded, List.mem_map] at hx
    obtain ⟨y, hy, hxy⟩ := hx
    by_cases hd : d = y.2.image
    · rw [if_pos hd] at hxy
      left; rw [← hxy]
    · rw [if_neg hd] at hxy
      rw [← hxy]
      rcases h y hy with h | h
      · exact Or.inl h
      · right
        rcases List.mem_cons.mp h with h | h
        · exact absurd h.symm hd
        · exact h

theorem exists_pending (imgs : List (String × ImageEntry)) (ds : List Handle)
    (hnd : (imgs.map (fun kv => kv.2.image)).Nodup)
    (hun : ∀ kv ∈ imgs, kv.2.loaded = false) (hlen : ds.length < imgs.length) :
    ∃ kv ∈ imgs, kv.2.loaded = false ∧ kv.2.image ∉ ds := by
  by_contra hcon
  push_neg at hcon
  have hsub : imgs.map (fun kv => kv.2.image) ⊆ ds := by
    intro x hx
    obtain ⟨kv, hkv, rfl⟩ := List.mem_map.mp hx
    exact hcon kv hkv (hun kv hkv)
  have hle := (List.Nodup.subperm hnd hsub).length_le
  simp only [List.length_map] at hle
  omega

/-- Counterexample to C1: the one-name batch `["__proto__"]`. The write
`this.images["__proto__"] = timg` installs `timg` as the prototype of the
dictionary and creates no entry; `imageLoadTest` then walks the inherited keys
`loaded` and `image`, whose values have no `loaded` field, and the notification
for the one image handle that was created does not invoke the continuation. -/
theorem proto_name_counterexample :
    (loadImages ["__proto__"] 7 demo).trace =
      [Effect.newImage 0, Effect.setSrc 0 "__proto__", Effect.addEventListener 0 "load"] ∧
    (loadImages ["__proto__"] 7 demo).self.images = [] ∧
    (loadImages ["__proto__"] 7 demo).self.imagesProto = some ⟨false, 0, none⟩ ∧
    endfuncCalls (deliver idle [0] (loadImages ["__proto__"] 7 demo)).trace = [] := by
  decide

/-- C1, amended: for a batch of `N ≥ 1` distinct names none of which is
`__proto__`, `loadImages` creates `N` image handles, and delivering their `N`
load notifications through `handleEvent` in any order invokes the continuation
exactly once in total: no invocation during the first `N - 1` notifications and
one at the last. -/
theorem load_gate_fires_once (u : User) (w : World) (names : List String) (cb : Nat)
    (order : List Handle) (hne : names ≠ []) (hd : names.Nodup)
    (hproto : "__proto__" ∉ names)
    (hperm : order.Perm (batchHandles (loadImages names cb w))) :
    (batchHandles (loadImages names cb w)).length = names.length ∧
    order.length = names.length ∧
    endfuncCalls (loadImages names cb w).trace = endfuncCalls w.trace ∧
    (∀ k, k < names.length →
      endfuncCalls (deliver u (order.take k) (loadImages names cb w)).trace =
        endfuncCalls (loadImages names cb w).trace) ∧
    endfuncCalls (deliver u order (loadImages names cb w)).trace =
      endfuncCalls (loadImages names cb w).trace ++ [cb] := by
  obtain ⟨hb, hun, hcb, hnp, htr⟩ := loadImages_batch names cb w hd hproto
  have hblen : (batchHandles (loadImages names cb w)).length = names.length := by
    rw [hb]; simp
  have holen : order.length = names.length := by rw [hperm.length_eq, hblen]
  have hnd : ((loadImages names cb w).self.images.map (fun kv => kv.2.image)).Nodup := by
    have : (batchHandles (loadImages names cb w)).Nodup := by
      rw [hb]; exact List.nodup_range' _ _
    exact this
  have hilen : (loadImages names cb w).self.images.length = names.length := by
    have := hblen
    simpa [batchHandles] using this
  have hpre : ∀ ds : List Handle, ds.length < names.length →
      deliver u ds (loadImages names cb w) =
        { loadImages names cb w with self := { (loadImages names cb w).self with
            images := ds.foldl (fun imgs h => markLoaded h imgs)
              (loadImages names cb w).self.images } } := by
    intro ds hds
    exact deliver_pending u ds _ (exists_pending _ ds hnd hun (by omega))
  refine ⟨hblen, holen, htr, ?_, ?_⟩
  · intro k hk
    rw [hpre (order.take k) (by rw [List.length_take]; omega)]
  · have hpos : 0 < names.length := List.length_pos.mpr hne
    have hone : order ≠ [] := by
      intro h; rw [h] at holen; simp at holen; omega
    have hsplit : order = order.dropLast ++ [order.getLast hone] :=
      (List.dropLast_append_getLast hone).symm
    have hdl : order.dropLast.length < names.length := by
      rw [List.length_dropLast]; omega
    have hall : ∀ kv ∈ markLoaded (order.getLast hone)
        (order.dropLast.foldl (fun imgs h => markLoaded h imgs)
          (loadImages names cb w).self.images), kv.2.loaded = true := by
      have h := foldl_markLoaded_all (order.dropLast ++ [order.getLast hone])
        (loadImages names cb w).self.images (by
          intro kv hkv
          right
          rw [← hsplit]
          exact hperm.mem_iff.mpr (List.mem_map.mpr ⟨kv, hkv, rfl⟩))
      simpa [List.foldl_append] using h
    have hw1 := hpre _ hdl
    have hlast := handleEvent_load_complete u (deliver u order.dropLast (loadImages names cb w))
      ⟨"load", order.getLast hone, 0, 0⟩ cb rfl (by rw [hw1]; exact hcb)
      (by rw [hw1]; exact hnp) (by rw [hw1]; exact hall)
    conv_lhs => rw [hsplit]
    rw [deliver_append]
    simp only [deliver]
    rw [hlast, hw1]

/-- Witness of C1, amended: `loadImages(["a.png", "b.png"], 7)` with the notification
for `b.png` (handle 1) delivered before the one for `a.png` (handle 0). -/
theorem load_gate_fires_once_witness :
    endfuncCalls (deliver idle [1] (loadImages ["a.png", "b.png"] 7 demo)).trace = [] ∧
    endfuncCalls (deliver idle [1, 0] (loadImages ["a.png", "b.png"] 7 demo)).trace = [7] := by
  have h := load_gate_fires_once idle demo ["a.png", "b.png"] 7 [1, 0] (by simp) (by simp)
    (by decide)
    (by
      have hb : batchHandles (loadImages ["a.png", "b.png"] 7 demo) = [0, 1] := by decide
      rw [hb]
      exact List.Perm.swap 0 1 [])
  obtain ⟨-, -, h0, hk, hlast⟩ := h
  have h1 := hk 1 (by simp)
  have hd : endfuncCalls demo.trace = [] := rfl
  rw [h0, hd] at h1 hlast
  exact ⟨h1, hlast⟩

end Eidolon
